import Mathlib

/-!
# go-ipc: lightweight mutex and lightweight event

A shallow embedding of `sync/lwmutex.go` and `sync/lwevent.go`.

* The shared state cell is an `int32`; it is modelled as an `Int`, and every
  operation that can leave the `int32` range wraps explicitly (`wrap32`).
* The `waitWaker` provider is a parameter: a state machine whose `wait` may
  return `nil`, a timeout error or another error.  While a caller is blocked
  inside `wait` other threads may write the cell, so `wait` also yields the
  cell value that is present when it returns.
* Sequential code is embedded by explicit state passing over `Machine`, which
  also records every provider call that was made.
* Unbounded loops (`for { ... }`) take a fuel argument.
-/

namespace GoIpc

/-! ## int32 arithmetic -/

/-- Two's complement wrap of an integer into the `int32` range. -/
def wrap32 (x : Int) : Int := (x + 2147483648) % 4294967296 - 2147483648

/-- The 32-bit pattern of an `int32`, as a natural number below `2^32`. -/
def toBits (x : Int) : Nat := (x % 4294967296).toNat

/-- The `int32` with the given bit pattern. -/
def ofBits (n : Nat) : Int := wrap32 (Int.ofNat n)

/-- Go `a | b` on `int32`. -/
def or32 (a b : Int) : Int := ofBits (toBits a ||| toBits b)

/-- Go `a & b` on `int32`. -/
def and32 (a b : Int) : Int := ofBits (toBits a &&& toBits b)

/-- Go `^a` on `int32` (bitwise complement). -/
def not32 (a : Int) : Int := ofBits (toBits a ^^^ 4294967295)

/-- Go `a + b` on `int32`. -/
def add32 (a b : Int) : Int := wrap32 (a + b)

/-- The constant `math.MinInt32`. -/
def minInt32 : Int := -2147483648

/-- Membership in the `int32` range. -/
def IsInt32 (x : Int) : Prop := -2147483648 ≤ x ∧ x < 2147483648

instance (x : Int) : Decidable (IsInt32 x) := by
  unfold IsInt32; infer_instance

/-! ## errors, provider, machine -/

/-- The two classes of error told apart by `common.IsTimeoutErr`. -/
inductive Err where
  | timeout
  | other
  deriving DecidableEq, Repr

/-- The predicate `common.IsTimeoutErr`. -/
def IsTimeoutErr : Err → Bool
  | .timeout => true
  | .other => false

/-- A call made on the `waitWaker` provider, with the error `wait` returned
(`none` is `nil`). -/
inductive Call where
  | wait (value timeout : Int) (res : Option Err)
  | wake (count : Nat)
  deriving DecidableEq, Repr

/-- The `waitWaker` provider.  `wait s cell value timeout` yields the next
provider state, the cell value present when the call returns, and the
returned error. -/
structure WaitWaker (σ : Type) where
  wait : σ → Int → Int → Int → σ × Int × Option Err
  wake : σ → Nat → σ

/-- Nobody else writes the cell while a caller is inside `wait`. -/
def WaitWaker.Quiet {σ : Type} (W : WaitWaker σ) : Prop :=
  ∀ s cell value timeout, (W.wait s cell value timeout).2.1 = cell

/-- The memory cell, the provider state and the provider calls made so far. -/
structure Machine (σ : Type) where
  cell : Int
  ww : σ
  calls : List Call

/-- How a call ends: it returns, it panics, or the model ran out of fuel. -/
inductive Outcome (α : Type) where
  | ret (a : α)
  | panicText (msg : String)
  | panicErr (e : Err)
  | fuelOut
  deriving DecidableEq, Repr

/-- `atomic.LoadInt32`. -/
def load {σ : Type} (m : Machine σ) : Int := m.cell

/-- A store to the cell. -/
def store {σ : Type} (m : Machine σ) (v : Int) : Machine σ := { m with cell := v }

/-- `atomic.SwapInt32`: the new machine and the old value. -/
def swap {σ : Type} (m : Machine σ) (v : Int) : Machine σ × Int :=
  ({ m with cell := v }, m.cell)

/-- `atomic.CompareAndSwapInt32`. -/
def cas {σ : Type} (m : Machine σ) (old new : Int) : Machine σ × Bool :=
  if m.cell = old then ({ m with cell := new }, true) else (m, false)

/-- A call of `ww.wait(value, timeout)`. -/
def wwWait {σ : Type} (W : WaitWaker σ) (m : Machine σ) (value timeout : Int) :
    Machine σ × Option Err :=
  let r := W.wait m.ww m.cell value timeout
  ({ cell := r.2.1, ww := r.1, calls := m.calls ++ [Call.wait value timeout r.2.2] }, r.2.2)

/-- A call of `ww.wake(count)`. -/
def wwWake {σ : Type} (W : WaitWaker σ) (m : Machine σ) (count : Nat) : Machine σ :=
  { cell := m.cell, ww := W.wake m.ww count, calls := m.calls ++ [Call.wake count] }

/-- The number of `wait` calls in a call log. -/
def waitCalls (l : List Call) : Nat :=
  (l.filter fun c => match c with | .wait _ _ _ => true | .wake _ => false).length

/-- The number of `wake` calls in a call log. -/
def wakeCalls (l : List Call) : Nat :=
  (l.filter fun c => match c with | .wait _ _ _ => false | .wake _ => true).length

/-- The provider state after `k` calls of `wait(value, timeout)` made while
the cell holds `cell`. -/
def WaitWaker.after {σ : Type} (W : WaitWaker σ) (cell value timeout : Int) : Nat → σ → σ
  | 0, s => s
  | k + 1, s => WaitWaker.after W cell value timeout k (W.wait s cell value timeout).1

/-- The trivial provider: `wait` returns `nil` at once and nothing is recorded
in the provider state. -/
def idleWW : WaitWaker Unit := { wait := fun _ cell _ _ => ((), cell, none), wake := fun _ _ => () }

/-- A provider whose `wait` always reports a timeout. -/
def timeoutWW : WaitWaker Unit :=
  { wait := fun _ cell _ _ => ((), cell, some Err.timeout), wake := fun _ _ => () }

/-- A provider whose `wait` returns `nil` while its counter is positive,
counting down, and reports the error `e` once the counter is zero. -/
def countdownWW (e : Err) : WaitWaker Nat :=
  { wait := fun n cell _ _ => (n - 1, cell, if n = 0 then some e else none)
    wake := fun n _ => n }

/-- A machine over the provider state `Unit` with the given cell and an empty
call log. -/
def mk (cell : Int) : Machine Unit := { cell := cell, ww := (), calls := [] }

/-! ## lwMutex (sync/lwmutex.go) -/

namespace LwMutex

def lwmSpinCount : Nat := 100
def lwmUnlocked : Int := 0
def lwmLockedNoWaiters : Int := 1
def lwmLockedHaveWaiters : Int := 2

/-- `lwMutex.init`. -/
def init {σ : Type} (m : Machine σ) : Machine σ := store m lwmUnlocked

/-- `lwMutex.tryLock`. -/
def tryLock {σ : Type} (m : Machine σ) : Machine σ × Bool :=
  cas m lwmUnlocked lwmLockedNoWaiters

/-- The spin loop of `doLock`: up to `n` calls of `tryLock`; the flag tells
whether one of them succeeded. -/
def spinTryLock {σ : Type} : Nat → Machine σ → Machine σ × Bool
  | 0, m => (m, false)
  | n + 1, m =>
    let r := tryLock m
    if r.2 then (r.1, true) else spinTryLock n r.1

/-- The loop `for old != lwmUnlocked { wait; swap }` of `doLock`. -/
def waitLoop {σ : Type} (W : WaitWaker σ) (timeout : Int) :
    Nat → Int → Machine σ → Machine σ × Outcome (Option Err)
  | fuel, old, m =>
    if old = lwmUnlocked then (m, .ret none)
    else match fuel with
      | 0 => (m, .fuelOut)
      | fuel + 1 =>
        let r := wwWait W m lwmLockedHaveWaiters timeout
        match r.2 with
        | some e => (r.1, .ret (some e))
        | none =>
          let s := swap r.1 lwmLockedHaveWaiters
          waitLoop W timeout fuel s.2 s.1

/-- `lwMutex.doLock`. -/
def doLock {σ : Type} (W : WaitWaker σ) (fuel : Nat) (m : Machine σ) (timeout : Int) :
    Machine σ × Outcome (Option Err) :=
  let r := spinTryLock lwmSpinCount m
  if r.2 then (r.1, .ret none)
  else
    let old := load r.1
    if old ≠ lwmLockedHaveWaiters then
      let s := swap r.1 lwmLockedHaveWaiters
      waitLoop W timeout fuel s.2 s.1
    else
      waitLoop W timeout fuel old r.1

/-- `lwMutex.lock`. -/
def lock {σ : Type} (W : WaitWaker σ) (fuel : Nat) (m : Machine σ) : Machine σ × Outcome Unit :=
  match doLock W fuel m (-1) with
  | (m1, .ret none) => (m1, .ret ())
  | (m1, .ret (some e)) => (m1, .panicErr e)
  | (m1, .panicText s) => (m1, .panicText s)
  | (m1, .panicErr e) => (m1, .panicErr e)
  | (m1, .fuelOut) => (m1, .fuelOut)

/-- `lwMutex.lockTimeout`. -/
def lockTimeout {σ : Type} (W : WaitWaker σ) (fuel : Nat) (m : Machine σ) (timeout : Int) :
    Machine σ × Outcome Bool :=
  match doLock W fuel m timeout with
  | (m1, .ret none) => (m1, .ret true)
  | (m1, .ret (some e)) => if IsTimeoutErr e then (m1, .ret false) else (m1, .panicErr e)
  | (m1, .panicText s) => (m1, .panicText s)
  | (m1, .panicErr e) => (m1, .panicErr e)
  | (m1, .fuelOut) => (m1, .fuelOut)

/-- The spin loop of `unlock`: up to `n` rounds; the flag tells whether a round
ended the call (`return` after the successful CAS). -/
def unlockSpin {σ : Type} : Nat → Machine σ → Machine σ × Bool
  | 0, m => (m, false)
  | n + 1, m =>
    if load m ≠ lwmUnlocked then
      let r := cas m lwmLockedNoWaiters lwmLockedHaveWaiters
      if r.2 then (r.1, true) else unlockSpin n r.1
    else unlockSpin n m

/-- The tail of `unlock`: the spin loop, then `ww.wake(1)`. -/
def unlockTail {σ : Type} (W : WaitWaker σ) (m : Machine σ) : Machine σ × Outcome Unit :=
  let r := unlockSpin lwmSpinCount m
  if r.2 then (r.1, .ret ()) else (wwWake W r.1 1, .ret ())

/-- `lwMutex.unlock`. -/
def unlock {σ : Type} (W : WaitWaker σ) (m : Machine σ) : Machine σ × Outcome Unit :=
  let old := load m
  if old = lwmLockedHaveWaiters then
    unlockTail W (store m lwmUnlocked)
  else if old = lwmUnlocked then
    (m, .panicText "unlock of unlocked mutex")
  else
    let s := swap m lwmUnlocked
    if s.2 = lwmLockedNoWaiters then (s.1, .ret ()) else unlockTail W s.1

end LwMutex

/-! ## lwMutex: interleaving model

Every thread runs `tryLock`, `doLock` and `unlock`; each atomic load, CAS, swap
and store is one step of one thread.  `wait` may return at any moment, with or
without an error, and `wake` does not touch the cell. -/

namespace LwMutex

/-- The control point of a thread. -/
inductive Pc where
  /-- outside every call, not holding the mutex -/
  | idle
  /-- `doLock`, round `i` of the spin loop, before the CAS of `tryLock` -/
  | lockSpin (i : Nat)
  /-- `doLock`, before `atomic.LoadInt32` -/
  | lockLoad
  /-- `doLock`, before the swap that precedes the wait loop -/
  | lockSwapFirst
  /-- `doLock`, inside `ww.wait` -/
  | lockWait
  /-- `doLock`, before the swap inside the wait loop -/
  | lockSwapAgain
  /-- the lock call has succeeded; `unlock` has not yet loaded the cell -/
  | held
  /-- `unlock` loaded `lwmLockedHaveWaiters`, before the store of `lwmUnlocked` -/
  | unlockStore
  /-- `unlock` loaded `lwmLockedNoWaiters`, before the swap to `lwmUnlocked` -/
  | unlockSwap
  /-- `unlock` loaded `lwmUnlocked` and panicked -/
  | unlockPanicked
  /-- `unlock`, round `i` of the spin loop, before the read of the cell -/
  | unlockSpinRead (i : Nat)
  /-- `unlock`, round `i` of the spin loop, before the CAS -/
  | unlockSpinCas (i : Nat)
  /-- `unlock`, before `ww.wake(1)` -/
  | unlockWake
  deriving DecidableEq, Repr

/-- What is not determined by the code: the call an idle thread makes and the
way `wait` returns. -/
inductive Choice where
  | callTryLock
  | callDoLock
  | waitNil
  | waitErr
  deriving DecidableEq, Repr

/-- A thread is an owner from the step at which its `tryLock` CAS succeeds or
its `doLock` swap returns `lwmUnlocked`, until the step of its `unlock` that
writes `lwmUnlocked`. -/
def isOwner : Pc → Bool
  | .held => true
  | .unlockStore => true
  | .unlockSwap => true
  | .unlockPanicked => true
  | _ => false

/-- Where `doLock` continues after a failed `tryLock` in round `i`. -/
def lockSpinNext (i : Nat) : Pc :=
  if i + 1 < lwmSpinCount then .lockSpin (i + 1) else .lockLoad

/-- Where `unlock` continues after round `i` of its spin loop. -/
def unlockSpinNext (i : Nat) : Pc :=
  if i + 1 < lwmSpinCount then .unlockSpinRead (i + 1) else .unlockWake

/-- One step of one thread: the new cell value and the new control point. -/
def threadStep (cell : Int) : Pc → Choice → Int × Pc
  | .idle, .callTryLock =>
    if cell = lwmUnlocked then (lwmLockedNoWaiters, .held) else (cell, .idle)
  | .idle, _ => (cell, .lockSpin 0)
  | .lockSpin i, _ =>
    if cell = lwmUnlocked then (lwmLockedNoWaiters, .held) else (cell, lockSpinNext i)
  | .lockLoad, _ =>
    if cell ≠ lwmLockedHaveWaiters then (cell, .lockSwapFirst) else (cell, .lockWait)
  | .lockSwapFirst, _ =>
    (lwmLockedHaveWaiters, if cell ≠ lwmUnlocked then .lockWait else .held)
  | .lockWait, .waitErr => (cell, .idle)
  | .lockWait, _ => (cell, .lockSwapAgain)
  | .lockSwapAgain, _ =>
    (lwmLockedHaveWaiters, if cell ≠ lwmUnlocked then .lockWait else .held)
  | .held, _ =>
    if cell = lwmLockedHaveWaiters then (cell, .unlockStore)
    else if cell = lwmUnlocked then (cell, .unlockPanicked)
    else (cell, .unlockSwap)
  | .unlockStore, _ => (lwmUnlocked, .unlockSpinRead 0)
  | .unlockSwap, _ =>
    (lwmUnlocked, if cell = lwmLockedNoWaiters then .idle else .unlockSpinRead 0)
  | .unlockPanicked, _ => (cell, .unlockPanicked)
  | .unlockSpinRead i, _ =>
    if cell ≠ lwmUnlocked then (cell, .unlockSpinCas i) else (cell, unlockSpinNext i)
  | .unlockSpinCas i, _ =>
    if cell = lwmLockedNoWaiters then (lwmLockedHaveWaiters, .idle)
    else (cell, unlockSpinNext i)
  | .unlockWake, _ => (cell, .idle)

/-- The shared cell and the control point of every thread. -/
structure Sys where
  cell : Int
  pcs : Nat → Pc

/-- The state after `init`: the cell is `lwmUnlocked`, no thread is in a call. -/
def Sys.start : Sys := { cell := lwmUnlocked, pcs := fun _ => .idle }

/-- Thread `t` takes one step. -/
def Sys.step (s : Sys) (t : Nat) (ch : Choice) : Sys :=
  { cell := (threadStep s.cell (s.pcs t) ch).1
    pcs := Function.update s.pcs t (threadStep s.cell (s.pcs t) ch).2 }

/-- The states reachable by interleaving the steps of the threads. -/
inductive Reachable : Sys → Prop where
  | start : Reachable Sys.start
  | step (s : Sys) (t : Nat) (ch : Choice) : Reachable s → Reachable (s.step t ch)

end LwMutex

/-! ## lwEvent (sync/lwevent.go) -/

namespace LwEvent

/-- `lwEvent.init`. -/
def init {σ : Type} (m : Machine σ) (set : Bool) : Machine σ :=
  store m (if set then minInt32 else 0)

/-- `lwEvent.set`; the fuel bounds the rounds of the CAS loop. -/
def set {σ : Type} (W : WaitWaker σ) : Nat → Machine σ → Machine σ × Outcome Unit
  | 0, m => (m, .fuelOut)
  | fuel + 1, m =>
    let old := load m
    if old < 0 then (m, .ret ())
    else
      let new := or32 old minInt32
      let r := cas m old new
      if r.2 then
        if old > 0 then (wwWake W r.1 1, .ret ()) else (r.1, .ret ())
      else set W fuel r.1

/-- `lwEvent.obtainOrChange`; the fuel bounds the rounds of the CAS loop.  The
result is the pair `(new, obtained)`. -/
def obtainOrChange {σ : Type} : Nat → Machine σ → Int → Machine σ × Outcome (Int × Bool)
  | 0, m, _ => (m, .fuelOut)
  | fuel + 1, m, inc =>
    let old := load m
    if 0 ≤ old ∧ inc = 0 then (m, .ret (old, false))
    else
      let new := if old < 0 then and32 old (not32 minInt32) else add32 old inc
      let r := cas m old new
      if r.2 then (r.1, .ret (new, decide (old < 0)))
      else obtainOrChange fuel r.1 inc

/-- Whether the error returned by `wait` is a timeout error. -/
def timedOut : Option Err → Bool
  | some e => IsTimeoutErr e
  | none => false

/-- The loop of `waitTimeout`; `fuel` bounds its rounds and `cfuel` the rounds
of the CAS loops inside. -/
def waitLoop {σ : Type} (W : WaitWaker σ) (cfuel : Nat) (timeout : Int) :
    Nat → Int → Machine σ → Machine σ × Outcome Bool
  | 0, _, m => (m, .fuelOut)
  | fuel + 1, new, m =>
    let r := wwWait W m new timeout
    if timedOut r.2 then
      match obtainOrChange cfuel r.1 (-1) with
      | (m1, .ret (_, obtained)) => (m1, .ret obtained)
      | (m1, .panicText s) => (m1, .panicText s)
      | (m1, .panicErr e) => (m1, .panicErr e)
      | (m1, .fuelOut) => (m1, .fuelOut)
    else
      match obtainOrChange cfuel r.1 0 with
      | (m1, .ret (new1, obtained)) =>
        if obtained then (m1, .ret true) else waitLoop W cfuel timeout fuel new1 m1
      | (m1, .panicText s) => (m1, .panicText s)
      | (m1, .panicErr e) => (m1, .panicErr e)
      | (m1, .fuelOut) => (m1, .fuelOut)

/-- `lwEvent.waitTimeout`. -/
def waitTimeout {σ : Type} (W : WaitWaker σ) (cfuel fuel : Nat) (m : Machine σ)
    (timeout : Int) : Machine σ × Outcome Bool :=
  match obtainOrChange cfuel m 1 with
  | (m1, .ret (new, obtained)) =>
    if obtained then (m1, .ret true) else waitLoop W cfuel timeout fuel new m1
  | (m1, .panicText s) => (m1, .panicText s)
  | (m1, .panicErr e) => (m1, .panicErr e)
  | (m1, .fuelOut) => (m1, .fuelOut)

/-- The signal bit (the highest bit) of the cell is set. -/
def signalled (cell : Int) : Bool := decide (cell < 0)

/-- The waiter count: the low 31 bits of the cell. -/
def waiters (cell : Int) : Nat := toBits cell % 2147483648

/-- An environment in which another thread runs `set()` while the caller is
blocked inside `wait`; `wait` then returns `res`. -/
def setDuringWaitWW (res : Option Err) : WaitWaker Unit :=
  { wait := fun _ cell _ _ => ((), (set idleWW 1 (mk cell)).1.cell, res)
    wake := fun _ _ => () }

/-! ### lwEvent: step relation

The steps are `init`, `set` and the `obtainOrChange` calls made by
`waitTimeout`.  Each call takes effect at its successful CAS, whose `old` is
the cell of that moment, so a step runs the call on the current cell.  -/

/-- The cell together with two counters that are not in the code: the
registered `waitTimeout` calls that have not returned yet, and the
registrations made since `init`. -/
structure EvSys where
  cell : Int
  inProgress : Nat
  registrations : Nat
  deriving DecidableEq, Repr

/-- The steps after `init`. -/
inductive EvOp where
  /-- a call of `set()` -/
  | set
  /-- the first `obtainOrChange(1)` of a `waitTimeout` call -/
  | register
  /-- `obtainOrChange(0)` by a registered call whose `wait` returned -/
  | recheck
  /-- `obtainOrChange(-1)` by a registered call whose `wait` timed out -/
  | timeout
  deriving DecidableEq, Repr

/-- The state after `init(set)`. -/
def EvSys.start (set : Bool) : EvSys :=
  { cell := (init (GoIpc.mk 0) set).cell, inProgress := 0, registrations := 0 }

/-- One step.  `register` is not enabled when it would be registration number
`2^31 - 1`; `recheck` and `timeout` are enabled only for a call that has
registered and not returned. -/
def EvSys.step (s : EvSys) : EvOp → Option EvSys
  | .set => some { s with cell := (LwEvent.set idleWW 1 (GoIpc.mk s.cell)).1.cell }
  | .register =>
    match obtainOrChange 1 (GoIpc.mk s.cell) 1 with
    | (m, .ret (_, true)) => some { s with cell := m.cell }
    | (m, .ret (_, false)) =>
      if s.registrations + 1 < 2147483647 then
        some { cell := m.cell, inProgress := s.inProgress + 1,
               registrations := s.registrations + 1 }
      else none
    | _ => none
  | .recheck =>
    if s.inProgress = 0 then none
    else match obtainOrChange 1 (GoIpc.mk s.cell) 0 with
      | (m, .ret (_, true)) => some { s with cell := m.cell, inProgress := s.inProgress - 1 }
      | (m, .ret (_, false)) => some { s with cell := m.cell }
      | _ => none
  | .timeout =>
    if s.inProgress = 0 then none
    else match obtainOrChange 1 (GoIpc.mk s.cell) (-1) with
      | (m, .ret _) => some { s with cell := m.cell, inProgress := s.inProgress - 1 }
      | _ => none

/-- The states reachable from `init(false)` or `init(true)`. -/
inductive EvReachable : EvSys → Prop where
  | init (set : Bool) : EvReachable (EvSys.start set)
  | step (s s1 : EvSys) (op : EvOp) : EvReachable s → s.step op = some s1 → EvReachable s1

end LwEvent


/-! ### lwEvent: runs of the step relation -/

namespace LwEvent

/-- Whether the `obtainOrChange` call of the step reports `obtained = true`;
the `waitTimeout` call that makes the step then returns true. -/
def EvSys.obtains (s : EvSys) : EvOp → Bool
  | .set => false
  | .register =>
    match obtainOrChange 1 (GoIpc.mk s.cell) 1 with
    | (_, .ret (_, obtained)) => obtained
    | _ => false
  | .recheck =>
    match obtainOrChange 1 (GoIpc.mk s.cell) 0 with
    | (_, .ret (_, obtained)) => obtained
    | _ => false
  | .timeout =>
    match obtainOrChange 1 (GoIpc.mk s.cell) (-1) with
    | (_, .ret (_, obtained)) => obtained
    | _ => false

/-- A run of steps: the final state and the number of `waitTimeout` calls that
returned true during the run; `none` if a step of the list is not enabled. -/
def EvSys.run : EvSys → List EvOp → Option (EvSys × Nat)
  | s, [] => some (s, 0)
  | s, op :: ops =>
    match s.step op with
    | none => none
    | some s1 =>
      match EvSys.run s1 ops with
      | none => none
      | some (s2, n) => some (s2, (if s.obtains op then 1 else 0) + n)

end LwEvent


/-! ## Go errors and results of the system-level code -/

/-- Go error values, as far as the code tells them apart. -/
inductive GoErr where
  /-- an error for which `os.IsNotExist` holds (`os.ErrNotExist`) -/
  | notExist
  /-- an error for which `os.IsExist` holds (`os.ErrExist`) -/
  | exist
  /-- an interrupted system call -/
  | interrupted
  /-- `ErrTooManyWaiters` -/
  | tooManyWaiters
  /-- any other error -/
  | sys (code : Nat)
  /-- `fmt.Errorf(msg + ": %w", err)` for a non-nil `err` -/
  | wrap (msg : String) (inner : GoErr)
  /-- `fmt.Errorf(msg + ": %w", nil)`: a non-nil error that wraps nothing -/
  | wrapNil (msg : String)
  deriving DecidableEq, Repr

/-- `fmt.Errorf(msg + ": %w", err)`; the result is never `nil`. -/
def Errorf (msg : String) : Option GoErr → GoErr
  | some e => .wrap msg e
  | none => .wrapNil msg

/-- `os.IsNotExist(err)`; it does not look through `fmt.Errorf`. -/
def osIsNotExist : Option GoErr → Bool
  | some .notExist => true
  | _ => false

/-- `os.IsExist(err)`. -/
def osIsExist : Option GoErr → Bool
  | some .exist => true
  | _ => false

/-- `errors.Is(err, os.ErrNotExist)` for a non-nil `err`; it follows the chain
of wrapped errors. -/
def errorsIsNotExist : GoErr → Bool
  | .notExist => true
  | .wrap _ e => errorsIsNotExist e
  | _ => false

/-- How a call of the system-level code ends. -/
inductive Exec (α : Type) where
  | ret (a : α)
  | panic (e : GoErr)
  | fuelOut
  deriving DecidableEq, Repr

/-! ## Condition variable over a shared waiter list
(sync/cond_waitlist.go, sync/cond_event.go) -/

namespace CondWaitlist

/-- What the code takes from outside: the constant `MaxCondWaiters`, the
process id, and the events, addressed by waiter id.  `createEvent id` is the
error of `NewEvent(condWaiterEventName(id), os.O_CREATE|os.O_EXCL, 0o666,
false)`, `openEvent id` the error of `NewEvent(condWaiterEventName(id), 0, 0,
false)`, `waitEvent id timeout` the result of `WaitTimeout(timeout)` on the
event created for `id`. -/
structure Env where
  maxCondWaiters : Nat
  pid : Nat
  createEvent : Nat → Option GoErr
  openEvent : Nat → Option GoErr
  waitEvent : Nat → Int → Bool

/-- The calls the code makes on the lockers and on the events. -/
inductive Ev where
  /-- `c.listLock.Lock()` -/
  | listLock
  /-- `c.listLock.Unlock()` -/
  | listUnlock
  /-- `c.L.Unlock()` -/
  | unlockL
  /-- `c.L.Lock()` -/
  | lockL
  /-- `NewEvent` with `os.O_CREATE|os.O_EXCL` for the id -/
  | create (id : Nat)
  /-- `NewEvent` with flag 0 for the id -/
  | tryOpen (id : Nat)
  /-- `ev.Set()` -/
  | set (id : Nat)
  /-- `ev.Close()` -/
  | close (id : Nat)
  /-- `w.e.WaitTimeout(timeout)` -/
  | wait (id : Nat) (timeout : Int)
  /-- `w.e.Destroy()` -/
  | destroy (id : Nat)
  deriving DecidableEq, Repr

/-- The slots of the shared array `c.waiters` (each holds a waiter id), the
package variable `seq`, and the calls made so far.  Calls on the lockers are
recorded and taken to return. -/
structure Cond where
  waiters : List Nat
  seq : Nat
  trace : List Ev
  deriving DecidableEq, Repr

/-- The struct `waiter`: `slot` is the pointer `id` into the shared array,
given as the index of the slot; `ev` is the event `e`, given by the id it was
created for. -/
structure Waiter where
  slot : Nat
  ev : Nat
  deriving DecidableEq, Repr

/-- Modelled from the spec: `SharedArray.PushBack` of internal/array, which is
not under src/; it appends one slot. -/
def pushBack (l : List Nat) : List Nat := l ++ [0]

/-- Modelled from the spec: `SharedArray.RemoveAt` of internal/array, which is
not under src/; removal swaps the slot with the last one and drops the
last. -/
def removeAt (l : List Nat) (i : Nat) : List Nat :=
  if i < l.length then (l.set i (l.getLastD 0)).dropLast else l

def record (c : Cond) (e : Ev) : Cond := { c with trace := c.trace ++ [e] }

/-- `nextID`: `atomic.AddUint32(&seq, 1)`. -/
def nextID (c : Cond) : Cond × Nat :=
  ({ c with seq := (c.seq + 1) % 4294967296 }, (c.seq + 1) % 4294967296)

/-- The id built by `newWaiter`: `uint64(pid)<<32 | uint64(nextID())`. -/
def waiterID (pid n : Nat) : Nat := ((pid <<< 32) % 18446744073709551616) ||| n

/-- `newWaiter(ptr)`, `ptr` pointing to the slot `slot`; the fuel bounds the
rounds of its loop. -/
def newWaiter (env : Env) : Nat → Cond → Nat → Cond × Exec Waiter
  | 0, c, _ => (c, .fuelOut)
  | fuel + 1, c, slot =>
    let r := nextID c
    let id := waiterID env.pid r.2
    let c1 := record r.1 (.create id)
    match env.createEvent id with
    | none => ({ c1 with waiters := c1.waiters.set slot id }, .ret { slot := slot, ev := id })
    | some err =>
      if !errorsIsNotExist err then
        (c1, .panic (Errorf "cond: failed to create an event" (some err)))
      else newWaiter env fuel c1 slot

/-- `openWaiter(c.waiters.AtPointer(i))` followed by `w.signal()`; `id` is
the content of the slot. -/
def waiterSignal (env : Env) (c : Cond) (id : Nat) : Cond × Exec Bool :=
  let c1 := record c (.tryOpen id)
  match env.openEvent id with
  | some err => if errorsIsNotExist err then (c1, .ret false) else (c1, .panic err)
  | none => (record (record c1 (.set id)) (.close id), .ret true)

/-- The loop of `signalN`, `for i := 0; i < c.waiters.Len() && signaled <
count; i++`, over the slots that are still to be visited. -/
def signalLoop (env : Env) (count : Int) : List Nat → Int → Cond → Cond × Exec Unit
  | [], _, c => (c, .ret ())
  | id :: rest, signaled, c =>
    if signaled < count then
      match waiterSignal env c id with
      | (c1, .ret true) => signalLoop env count rest (signaled + 1) c1
      | (c1, .ret false) => signalLoop env count rest signaled c1
      | (c1, .panic e) => (c1, .panic e)
      | (c1, .fuelOut) => (c1, .fuelOut)
    else (c, .ret ())

/-- `cond.signalN`. -/
def signalN (env : Env) (c : Cond) (count : Int) : Cond × Exec Unit :=
  signalLoop env count c.waiters 0 c

/-- `cond.signal`; the deferred `Unlock` runs on a panic as well. -/
def signal (env : Env) (c : Cond) : Cond × Exec Unit :=
  let r := signalN env (record c .listLock) 1
  (record r.1 .listUnlock, r.2)

/-- `cond.broadcast`. -/
def broadcast (env : Env) (c : Cond) : Cond × Exec Unit :=
  let c1 := record c .listLock
  let r := signalN env c1 (Int.ofNat c1.waiters.length)
  (record r.1 .listUnlock, r.2)

/-- `cond.addToWaitersList`. -/
def addToWaitersList (env : Env) (fuel : Nat) (c : Cond) : Cond × Exec Waiter :=
  let c1 := record c .listLock
  if c1.waiters.length ≥ env.maxCondWaiters then
    (record c1 .listUnlock, .panic .tooManyWaiters)
  else
    let c2 := { c1 with waiters := pushBack c1.waiters }
    let r := newWaiter env fuel c2 (c2.waiters.length - 1)
    (record r.1 .listUnlock, r.2)

/-- The loop of `cond.cleanupWaiter` from index `i` on, with `n` slots still
to be visited. -/
def cleanupLoop (w : Waiter) : Nat → Nat → Cond → Cond
  | 0, _, c => c
  | n + 1, i, c =>
    if w.slot = i then
      let c1 := record c (.destroy w.ev)
      { c1 with waiters := removeAt c1.waiters i }
    else cleanupLoop w n (i + 1) c

/-- `cond.cleanupWaiter`. -/
def cleanupWaiter (c : Cond) (w : Waiter) : Cond :=
  let c1 := record c .listLock
  record (cleanupLoop w c1.waiters.length 0 c1) .listUnlock

/-- `cond.doWait`. -/
def doWait (env : Env) (fuel : Nat) (c : Cond) (timeout : Int) : Cond × Exec Bool :=
  match addToWaitersList env fuel c with
  | (c1, .ret w) =>
    let c2 := record c1 .unlockL
    let result := env.waitEvent w.ev timeout
    let c3 := record c2 (.wait w.ev timeout)
    let c4 := record c3 .lockL
    (cleanupWaiter c4 w, .ret result)
  | (c1, .panic e) => (c1, .panic e)
  | (c1, .fuelOut) => (c1, .fuelOut)

/-- `cond.wait`. -/
def wait (env : Env) (fuel : Nat) (c : Cond) : Cond × Exec Unit :=
  match doWait env fuel c (-1) with
  | (c1, .ret _) => (c1, .ret ())
  | (c1, .panic e) => (c1, .panic e)
  | (c1, .fuelOut) => (c1, .fuelOut)

/-- `cond.waitTimeout`. -/
def waitTimeout (env : Env) (fuel : Nat) (c : Cond) (timeout : Int) : Cond × Exec Bool :=
  doWait env fuel c timeout

/-- The calls on the paired locker `c.L` and the event waits, in order. -/
def lockerOps : List Ev → List Ev
  | [] => []
  | .unlockL :: l => .unlockL :: lockerOps l
  | .lockL :: l => .lockL :: lockerOps l
  | .wait id t :: l => .wait id t :: lockerOps l
  | _ :: l => lockerOps l

/-- The calls on the list mutex, in order. -/
def listOps : List Ev → List Ev
  | [] => []
  | .listLock :: l => .listLock :: listOps l
  | .listUnlock :: l => .listUnlock :: listOps l
  | _ :: l => listOps l

/-- An environment with room for four waiters in which the event of waiter 2
is gone, every other event can be opened and created, and an event wait
returns true exactly for a non-negative timeout. -/
def demoEnv : Env :=
  { maxCondWaiters := 4
    pid := 7
    createEvent := fun _ => none
    openEvent := fun id => if id = 2 then some GoErr.notExist else none
    waitEvent := fun _ t => decide (0 ≤ t) }

end CondWaitlist


/-! ## Condition variable over a sequence counter (sync/cond_futex.go) -/

namespace CondFutex

/-- The kernel side of the futex, which the code takes from outside: the
error returned by `ftx.wait(seq, timeout)` when the counter holds `cell`, by
`ftx.wake(n)` and by `ftx.wakeAll()`. -/
structure Env where
  wait : Int → Int → Int → Option Err
  wake : Nat → Option Err
  wakeAll : Option Err

/-- The calls the code makes on the futex and on the paired locker. -/
inductive Ev where
  /-- `c.ftx.add(n)` -/
  | add (n : Int)
  /-- `c.ftx.wake(n)` -/
  | wake (n : Nat)
  /-- `c.ftx.wakeAll()` -/
  | wakeAll
  /-- `c.ftx.wait(seq, timeout)` -/
  | wait (seq timeout : Int)
  /-- `c.L.Unlock()` -/
  | unlockL
  /-- `c.L.Lock()` -/
  | lockL
  deriving DecidableEq, Repr

/-- The shared sequence counter and the calls made so far.  Calls on the
locker are recorded and taken to return. -/
structure Cond where
  cell : Int
  trace : List Ev
  deriving DecidableEq, Repr

def record (c : Cond) (e : Ev) : Cond := { c with trace := c.trace ++ [e] }

/-- Modelled from the spec: `futex.add`, which is not under src/; it
atomically adds `n` to the 32-bit counter. -/
def futexAdd (c : Cond) (n : Int) : Cond :=
  record { c with cell := add32 c.cell n } (.add n)

/-- Modelled from the spec: the blocking rule of `futex.wait`, which is not
under src/; a wait blocks only while the counter is bit-equal to the expected
value. -/
def futexBlocks (cell expected : Int) : Bool := decide (cell = expected)

/-- `cond.signal`. -/
def signal (env : Env) (c : Cond) : Cond × Outcome Unit :=
  let c1 := futexAdd c 1
  let c2 := record c1 (.wake 1)
  match env.wake 1 with
  | some err => (c2, .panicErr err)
  | none => (c2, .ret ())

/-- `cond.broadcast`. -/
def broadcast (env : Env) (c : Cond) : Cond × Outcome Unit :=
  let c1 := futexAdd c 1
  let c2 := record c1 .wakeAll
  match env.wakeAll with
  | some err => (c2, .panicErr err)
  | none => (c2, .ret ())

/-- `cond.wait`. -/
def wait (env : Env) (c : Cond) : Cond × Outcome Unit :=
  let seq := c.cell
  let c1 := record c .unlockL
  let c2 := record c1 (.wait seq (-1))
  match env.wait c1.cell seq (-1) with
  | some err => (c2, .panicErr err)
  | none => (record c2 .lockL, .ret ())

/-- `cond.waitTimeout`. -/
def waitTimeout (env : Env) (c : Cond) (timeout : Int) : Cond × Outcome Bool :=
  let seq := c.cell
  let c1 := record c .unlockL
  let c2 := record c1 (.wait seq timeout)
  match env.wait c1.cell seq timeout with
  | none => (record c2 .lockL, .ret true)
  | some err =>
    if !IsTimeoutErr err then (c2, .panicErr err)
    else (record c2 .lockL, .ret false)

/-- The calls on the paired locker and the futex waits, in order. -/
def lockerOps : List Ev → List Ev
  | [] => []
  | .unlockL :: l => .unlockL :: lockerOps l
  | .lockL :: l => .lockL :: lockerOps l
  | .wait s t :: l => .wait s t :: lockerOps l
  | _ :: l => lockerOps l

/-- A futex whose `wait` reports a timeout for every non-negative timeout and
returns `nil` otherwise, and whose wakes succeed. -/
def demoEnv : Env :=
  { wait := fun _ _ t => if 0 ≤ t then some Err.timeout else none
    wake := fun _ => none
    wakeAll := none }

end CondFutex


namespace CondFutex

/-- A sequence of calls, `true` for `broadcast()` and `false` for `signal()`,
each continuing from the state the previous one left. -/
def calls (env : Env) : List Bool → Cond → Cond
  | [], c => c
  | true :: l, c => calls env l (broadcast env c).1
  | false :: l, c => calls env l (signal env c).1

end CondFutex


/-! ## SysV semaphore (sync/sema_unix.go) -/

namespace Sema

/-- The struct `sembuf`: `semnum` is a `uint16`, `semop` and `semflg` are
`int16`. -/
structure Sembuf where
  semnum : Nat
  semop : Int
  semflg : Int
  deriving DecidableEq, Repr

/-- The Go conversion `int16(v)` of an `int`: the low 16 bits, signed. -/
def int16 (v : Int) : Int := (v + 32768) % 65536 - 32768

/-- The system calls the code makes, with their arguments. -/
inductive SysCall where
  | semop (id : Int) (ops : List Sembuf)
  | semctl (id : Int) (num : Int) (cmd : Int)
  | semget (key : Nat) (nsems : Int) (flags : Int)
  | remove (path : String)
  | keyForName (name : String)
  deriving DecidableEq, Repr

/-- What the code takes from outside: the kernel and the file system as a
state machine over `κ`, the helpers `common.KeyForName` and
`common.TmpFilename`, and the constant `common.IpcRmid`. -/
structure Kernel (κ : Type) where
  semop : κ → Int → List Sembuf → κ × Option GoErr
  semctl : κ → Int → Int → Int → κ × Option GoErr
  semget : κ → Nat → Int → Int → κ × Int × Option GoErr
  remove : κ → String → κ × Option GoErr
  keyForName : κ → String → κ × Nat × Option GoErr
  tmpFilename : String → String
  ipcRmid : Int

/-- The state of the outside world and the system calls made so far. -/
structure Sys (κ : Type) where
  k : κ
  calls : List SysCall

/-- The struct `semaphore`. -/
structure Semaphore where
  name : String
  id : Int
  deriving DecidableEq, Repr

/-- The system call `semop(id, ops)`. -/
def sysSemop {κ : Type} (K : Kernel κ) (s : Sys κ) (id : Int) (ops : List Sembuf) :
    Sys κ × Option GoErr :=
  ({ k := (K.semop s.k id ops).1, calls := s.calls ++ [.semop id ops] }, (K.semop s.k id ops).2)

/-- The system call `semctl(id, num, cmd)`. -/
def sysSemctl {κ : Type} (K : Kernel κ) (s : Sys κ) (id num cmd : Int) : Sys κ × Option GoErr :=
  ({ k := (K.semctl s.k id num cmd).1, calls := s.calls ++ [.semctl id num cmd] },
   (K.semctl s.k id num cmd).2)

/-- The system call `semget(key, nsems, flags)`. -/
def sysSemget {κ : Type} (K : Kernel κ) (s : Sys κ) (key : Nat) (nsems flags : Int) :
    Sys κ × Int × Option GoErr :=
  ({ k := (K.semget s.k key nsems flags).1, calls := s.calls ++ [.semget key nsems flags] },
   (K.semget s.k key nsems flags).2)

/-- `os.Remove(path)`. -/
def osRemove {κ : Type} (K : Kernel κ) (s : Sys κ) (path : String) : Sys κ × Option GoErr :=
  ({ k := (K.remove s.k path).1, calls := s.calls ++ [.remove path] }, (K.remove s.k path).2)

/-- `common.KeyForName(name)`. -/
def keyForName {κ : Type} (K : Kernel κ) (s : Sys κ) (name : String) :
    Sys κ × Nat × Option GoErr :=
  ({ k := (K.keyForName s.k name).1, calls := s.calls ++ [.keyForName name] },
   (K.keyForName s.k name).2)

/-- Modelled from the spec: `common.UninterruptedSyscall` (the spec's
`uninterrupted_syscall(fn)`), which is not under src/; it calls `f` again as
long as `f` reports an interrupted system call.  The fuel bounds the number
of calls. -/
def UninterruptedSyscall {σ : Type} (f : σ → σ × Option GoErr) :
    Nat → σ → σ × Exec (Option GoErr)
  | 0, s => (s, .fuelOut)
  | fuel + 1, s =>
    if (f s).2 = some GoErr.interrupted then UninterruptedSyscall f fuel (f s).1
    else ((f s).1, .ret (f s).2)

/-- `semAdd(id, value)`. -/
def semAdd {κ : Type} (K : Kernel κ) (s : Sys κ) (id value : Int) : Sys κ × Option GoErr :=
  let b : Sembuf := { semnum := 0, semop := int16 value, semflg := 0 }
  sysSemop K s id [b]

/-- `semaphore.add(value)`. -/
def add {κ : Type} (K : Kernel κ) (fuel : Nat) (s : Sys κ) (sem : Semaphore) (value : Int) :
    Sys κ × Exec (Option GoErr) :=
  UninterruptedSyscall (fun st => semAdd K st sem.id value) fuel s

/-- `semaphore.signal(count)`. -/
def signal {κ : Type} (K : Kernel κ) (fuel : Nat) (s : Sys κ) (sem : Semaphore) (count : Int) :
    Sys κ × Exec Unit :=
  match add K fuel s sem count with
  | (s1, .ret (some err)) => (s1, .panic err)
  | (s1, .ret none) => (s1, .ret ())
  | (s1, .panic e) => (s1, .panic e)
  | (s1, .fuelOut) => (s1, .fuelOut)

/-- `semaphore.wait()`. -/
def wait {κ : Type} (K : Kernel κ) (fuel : Nat) (s : Sys κ) (sem : Semaphore) :
    Sys κ × Exec Unit :=
  match add K fuel s sem (-1) with
  | (s1, .ret (some err)) => (s1, .panic err)
  | (s1, .ret none) => (s1, .ret ())
  | (s1, .panic e) => (s1, .panic e)
  | (s1, .fuelOut) => (s1, .fuelOut)

/-- `removeSysVSemaByID(id, name)`. -/
def removeSysVSemaByID {κ : Type} (K : Kernel κ) (s : Sys κ) (id : Int) (name : String) :
    Sys κ × Option GoErr :=
  let r := sysSemctl K s id 0 K.ipcRmid
  if r.2 = none ∧ name.length > 0 then
    let r2 := osRemove K r.1 (K.tmpFilename name)
    if osIsNotExist r2.2 then (r2.1, none)
    else if r2.2 ≠ none then (r2.1, some (Errorf "removing temporary file" r2.2))
    else (r2.1, r2.2)
  else if osIsNotExist r.2 then (r.1, none)
  else (r.1, some (Errorf "semctl" r.2))

/-- `semaphore.Destroy()`. -/
def Destroy {κ : Type} (K : Kernel κ) (s : Sys κ) (sem : Semaphore) : Sys κ × Option GoErr :=
  removeSysVSemaByID K s sem.id sem.name

/-- `destroySemaphore(name)`. -/
def destroySemaphore {κ : Type} (K : Kernel κ) (s : Sys κ) (name : String) :
    Sys κ × Option GoErr :=
  let r := keyForName K s name
  match r.2.2 with
  | some err => (r.1, some (Errorf "getting a key for the name" (some err)))
  | none =>
    let g := sysSemget K r.1 r.2.1 1 0
    match g.2.2 with
    | some err =>
      if errorsIsNotExist err then (g.1, none)
      else (g.1, some (Errorf "getting semaphore id" (some err)))
    | none => removeSysVSemaByID K g.1 g.2.1 name

/-- The largest value a SysV semaphore can hold (`SEMVMX`). -/
def semvmx : Int := 32767

/-- One operation of semop(2) on a set of one semaphore of value `v`, with no
other process attached.  A semaphore number other than 0 is rejected (errno 27,
EFBIG).  A positive operation never sleeps: it is added to the value, unless
the sum would exceed `SEMVMX`, and then the call fails with errno 34 (ERANGE)
and leaves the value.  A negative operation is subtracted when the value is large enough;
otherwise, and for a zero operation on a value that is not zero, the caller
sleeps, and as no other process changes the value the call can only come back
interrupted by a signal.  The flags are not interpreted (the code passes 0). -/
def kernelSemop (v : Int) (b : Sembuf) : Int × Option GoErr :=
  if b.semnum ≠ 0 then (v, some (GoErr.sys 27))
  else if 0 < b.semop then
    if v + b.semop ≤ semvmx then (v + b.semop, none) else (v, some (GoErr.sys 34))
  else if b.semop < 0 then
    if 0 ≤ v + b.semop then (v + b.semop, none) else (v, some GoErr.interrupted)
  else if v = 0 then (v, none)
  else (v, some GoErr.interrupted)

/-- A kernel with one semaphore, whose value (between 0 and `SEMVMX`) is the
state.  `semop` with one operation is `kernelSemop`; the code never passes
another number of operations (errno 22 here).  `semctl` and `remove` succeed,
`semget` and `KeyForName` return 1. -/
def valueKernel : Kernel Int :=
  { semop := fun v _ ops =>
      match ops with
      | [b] => kernelSemop v b
      | _ => (v, some (GoErr.sys 22))
    semctl := fun v _ _ _ => (v, none)
    semget := fun v _ _ _ => (v, 1, none)
    remove := fun v _ => (v, none)
    keyForName := fun v _ => (v, 1, none)
    tmpFilename := fun name => "/tmp/" ++ name
    ipcRmid := 0 }

end Sema


/-! ## Shared memory emulated by files (shm/shared_memory_windows.go) -/

namespace Shm

/-- The file system as far as the code uses it: the result of `os.TempDir()`,
the existing directories and files, the error `os.Mkdir` reports instead of
creating a directory, if any, and the error `os.Remove` reports instead of
removing an existing file or directory, if any. -/
structure Fs where
  tempDir : String
  dirs : List String
  files : List String
  mkdirFails : Option GoErr
  removeFails : Option GoErr
  deriving DecidableEq, Repr

/-- `os.Mkdir(path, perm)`. -/
def osMkdir (fs : Fs) (path : String) : Fs × Option GoErr :=
  if path ∈ fs.dirs then (fs, some GoErr.exist)
  else match fs.mkdirFails with
    | some e => (fs, some e)
    | none => ({ fs with dirs := path :: fs.dirs }, none)

/-- A path without its trailing slashes. -/
def trimSlash (path : String) : String :=
  ⟨(path.data.reverse.dropWhile (fun ch => ch = '/')).reverse⟩

/-- No file and no directory lies below the directory `dir`. -/
def dirEmpty (fs : Fs) (dir : String) : Bool :=
  fs.files.all (fun f => !(dir.data ++ ['/']).isPrefixOf f.data) &&
  fs.dirs.all (fun d => !(dir.data ++ ['/']).isPrefixOf d.data)

/-- `os.Remove(path)`: it removes the file of that name, or else the directory
of that name (written with or without trailing slashes) when it is empty.  A
directory that is not empty is reported with errno 39 (ENOTEMPTY), a file
named with a trailing slash with errno 20 (ENOTDIR), a name that is neither
with not-exist. -/
def osRemove (fs : Fs) (path : String) : Fs × Option GoErr :=
  if path ∈ fs.files then
    match fs.removeFails with
    | some e => (fs, some e)
    | none => ({ fs with files := fs.files.erase path }, none)
  else if trimSlash path ∈ fs.dirs then
    match fs.removeFails with
    | some e => (fs, some e)
    | none =>
      if dirEmpty fs (trimSlash path) then
        ({ fs with dirs := fs.dirs.erase (trimSlash path) }, none)
      else (fs, some (GoErr.sys 39))
  else if trimSlash path ∈ fs.files then (fs, some (GoErr.sys 20))
  else (fs, some GoErr.notExist)

/-- `sharedDirName()`. -/
def sharedDirName (fs : Fs) : Fs × String × Option GoErr :=
  let rootPath := fs.tempDir ++ "/go-ipc"
  let r := osMkdir fs rootPath
  if r.2 ≠ none ∧ !osIsExist r.2 then (r.1, "", r.2)
  else (r.1, rootPath, none)

/-- `shmName(name)`. -/
def shmName (fs : Fs) (name : String) : Fs × String × Option GoErr :=
  let r := sharedDirName fs
  if r.2.2 ≠ none then (r.1, "", some (Errorf "getting tmp directory name" r.2.2))
  else (r.1, r.2.1 ++ "/" ++ name, none)

/-- `destroyMemoryObject(name)`. -/
def destroyMemoryObject (fs : Fs) (name : String) : Fs × Option GoErr :=
  let r := shmName fs name
  if r.2.2 ≠ none then (r.1, some (Errorf "shm name" r.2.2))
  else
    let d := osRemove r.1 r.2.1
    if osIsNotExist d.2 then (d.1, none)
    else (d.1, some (Errorf "removing file" d.2))

end Shm

/-! ## CreateWritableRegion (internal/helper/helper.go) -/

namespace Helper

/-- What the code takes from outside: the error and the `created` flag
returned by `shm.NewMemoryObjectSize`, and the region (`nil` or not) and the
error returned by `mmf.NewMemoryRegion`. -/
structure Env where
  objErr : Option GoErr
  created : Bool
  region : Option Nat
  regionErr : Option GoErr
  deriving DecidableEq, Repr

/-- The calls made on the memory object and on the region. -/
inductive Ev where
  /-- `obj.Close()` -/
  | objClose
  /-- `obj.Destroy()` -/
  | objDestroy
  /-- `region.Close()` -/
  | regionClose
  deriving DecidableEq, Repr

/-- The three results of `CreateWritableRegion` and the calls it made. -/
structure Result where
  region : Option Nat
  created : Bool
  err : Option GoErr
  trace : List Ev
  deriving DecidableEq, Repr

/-- The deferred function of `CreateWritableRegion`, run with the values the
variables `resultErr`, `region` and `created` hold at the return. -/
def deferred (resultErr : Option GoErr) (region : Option Nat) (created : Bool) : List Ev :=
  [Ev.objClose] ++
    (if resultErr = none then []
     else (if region ≠ none then [Ev.regionClose] else []) ++
          (if created then [Ev.objDestroy] else []))

/-- `CreateWritableRegion`. -/
def CreateWritableRegion (env : Env) : Result :=
  if env.objErr ≠ none then
    { region := none, created := false,
      err := some (Errorf "creating shm object" env.objErr), trace := [] }
  else
    let region := env.region
    let resultErr := env.regionErr
    if resultErr ≠ none then
      { region := none, created := false,
        err := some (Errorf "creating shm region" resultErr),
        trace := deferred resultErr region env.created }
    else
      { region := region, created := env.created, err := none,
        trace := deferred resultErr region env.created }

end Helper

/-! ## Memory region on unix (mmf/memory_region_unix.go) -/

namespace Mmf

/-- The struct `memoryRegion`; `data` is `nil` or the mapping, given by its
address. -/
structure memoryRegion where
  data : Option Nat
  size : Int
  pageOffset : Int
  deriving DecidableEq, Repr

/-- `memoryRegion.Close`; `munmap` gives the error of `unix.Munmap` for its
argument.  The result is the region afterwards, the returned error, and the
arguments of the `unix.Munmap` calls made. -/
def Close (munmap : Option Nat → Option GoErr) (region : memoryRegion) :
    memoryRegion × Option GoErr × List (Option Nat) :=
  if region.data = none then
    let err := munmap region.data
    let zero : memoryRegion := { data := none, size := 0, pageOffset := 0 }
    if err ≠ none then (zero, some (Errorf "munmap failed" err), [region.data])
    else (zero, none, [region.data])
  else (region, none, [])

end Mmf


/-! ## lwMutex: the values of the cell -/

namespace LwMutex

/-- The cell holds one of the three values of the mutex. -/
def IsCellState (cell : Int) : Prop :=
  cell = lwmUnlocked ∨ cell = lwmLockedNoWaiters ∨ cell = lwmLockedHaveWaiters

instance (cell : Int) : Decidable (IsCellState cell) := by
  unfold IsCellState; infer_instance

/-- The cell holds one of the two locked values. -/
def IsLocked (cell : Int) : Prop :=
  cell = lwmLockedNoWaiters ∨ cell = lwmLockedHaveWaiters

instance (cell : Int) : Decidable (IsLocked cell) := by
  unfold IsLocked; infer_instance

/-- Whatever the other threads do while a caller is inside `wait`, they leave
one of the three values in the cell. -/
def KeepsCellState {σ : Type} (W : WaitWaker σ) : Prop :=
  ∀ s cell value timeout, IsCellState cell → IsCellState (W.wait s cell value timeout).2.1

/-- A provider during whose `wait` another thread releases the mutex: the cell
holds UNLOCKED when `wait` returns, and `wait` returns `res`. -/
def releasedWW (res : Option Err) : WaitWaker Unit :=
  { wait := fun _ _ _ _ => ((), lwmUnlocked, res), wake := fun _ _ => () }

end LwMutex


/-! ## Waiter ids and event names (sync/cond_event.go) -/

namespace CondWaitlist

/-- `condWaiterEventName(id)`: `fmt.Sprintf("cev.%d", id)`. -/
def condWaiterEventName (id : Nat) : String := "cev." ++ Nat.repr id

/-- The result of call number `k + 1` of `nextID`, counted from the state
`c`. -/
def nthNextID : Cond → Nat → Nat
  | c, 0 => (nextID c).2
  | c, k + 1 => nthNextID (nextID c).1 k

/-- The number written by a list of decimal digits. -/
def decimalValue (l : List Char) : Nat :=
  l.foldl (fun a ch => 10 * a + (ch.toNat - 48)) 0

/-- The ids for which the code tried to create an event, in the order of the
calls. -/
def createIds : List Ev → List Nat
  | [] => []
  | .create id :: l => id :: createIds l
  | _ :: l => createIds l

/-- The environment of process 7 in which the event of the first waiter id,
`7<<32 | 1`, fails to be created with the error `err` and every other event
can be created. -/
def collideEnv (err : GoErr) : Env :=
  { maxCondWaiters := 4
    pid := 7
    createEvent := fun id => if id = 30064771073 then some err else none
    openEvent := fun _ => none
    waitEvent := fun _ _ => true }

end CondWaitlist


namespace CondWaitlist

end CondWaitlist

/-! # Theorems -/

/-! ## lwMutex: sequential properties -/

namespace LwMutex

theorem spinTryLock_unlocked {σ : Type} (n : Nat) (m : Machine σ) (h : m.cell = lwmUnlocked) :
    spinTryLock (n + 1) m = ({ m with cell := lwmLockedNoWaiters }, true) := by
  simp [spinTryLock, tryLock, cas, h]

theorem spinTryLock_locked {σ : Type} (n : Nat) (m : Machine σ) (h : m.cell ≠ lwmUnlocked) :
    spinTryLock n m = (m, false) := by
  induction n with
  | zero => rfl
  | succ k ih => simp [spinTryLock, tryLock, cas, h, ih]

theorem doLock_unlocked {σ : Type} (W : WaitWaker σ) (fuel : Nat) (m : Machine σ) (t : Int)
    (h : m.cell = lwmUnlocked) :
    doLock W fuel m t = ({ m with cell := lwmLockedNoWaiters }, .ret none) := by
  have hc : lwmSpinCount = 99 + 1 := rfl
  simp [doLock, hc, spinTryLock_unlocked 99 m h]

theorem lock_unlocked {σ : Type} (W : WaitWaker σ) (fuel : Nat) (m : Machine σ)
    (h : m.cell = lwmUnlocked) :
    lock W fuel m = ({ m with cell := lwmLockedNoWaiters }, .ret ()) := by
  simp [lock, doLock_unlocked W fuel m (-1) h]

theorem unlock_noWaiters {σ : Type} (W : WaitWaker σ) (m : Machine σ)
    (h : m.cell = lwmLockedNoWaiters) :
    unlock W m = ({ m with cell := lwmUnlocked }, .ret ()) := by
  simp [unlock, load, swap, h, lwmLockedNoWaiters, lwmLockedHaveWaiters, lwmUnlocked]

theorem unlock_unlocked {σ : Type} (W : WaitWaker σ) (m : Machine σ)
    (h : m.cell = lwmUnlocked) :
    unlock W m = (m, .panicText "unlock of unlocked mutex") := by
  simp [unlock, load, h, lwmLockedHaveWaiters, lwmUnlocked]

/-- C2: on a cell equal to UNLOCKED that nobody else touches, `lock()` returns
normally, the following `unlock()` returns normally and leaves the cell equal
to UNLOCKED, for every provider (which is never called) and every fuel. -/
theorem lock_unlock_roundtrip {σ : Type} (W : WaitWaker σ) (fuel : Nat) (m : Machine σ)
    (h : m.cell = lwmUnlocked) :
    (lock W fuel m).2 = .ret () ∧
    (unlock W (lock W fuel m).1).2 = .ret () ∧
    (unlock W (lock W fuel m).1).1.cell = lwmUnlocked ∧
    (unlock W (lock W fuel m).1).1.calls = m.calls := by
  rw [lock_unlocked W fuel m h]
  rw [unlock_noWaiters W _ rfl]
  exact ⟨rfl, rfl, rfl, rfl⟩

theorem lock_unlock_roundtrip_witness :
    (lock idleWW 0 (mk 0)).2 = .ret () ∧
    (unlock idleWW (lock idleWW 0 (mk 0)).1).2 = .ret () ∧
    (unlock idleWW (lock idleWW 0 (mk 0)).1).1.cell = lwmUnlocked ∧
    (unlock idleWW (lock idleWW 0 (mk 0)).1).1.calls = [] :=
  lock_unlock_roundtrip idleWW 0 (mk 0) rfl

/-- C3: `unlock()` on a cell equal to UNLOCKED panics with "unlock of unlocked
mutex" and leaves the whole machine as it was (the cell stays UNLOCKED, no
provider call is made); hence on an uncontended mutex `lock(); unlock();
unlock()` returns twice and panics at the second `unlock()`. -/
theorem unlock_unlocked_fails_fast {σ : Type} (W : WaitWaker σ) (fuel : Nat) (m : Machine σ)
    (h : m.cell = lwmUnlocked) :
    unlock W m = (m, .panicText "unlock of unlocked mutex") ∧
    wakeCalls (unlock W m).1.calls = wakeCalls m.calls ∧
    (lock W fuel m).2 = .ret () ∧
    (unlock W (lock W fuel m).1).2 = .ret () ∧
    (unlock W (unlock W (lock W fuel m).1).1).2 = .panicText "unlock of unlocked mutex" ∧
    (unlock W (unlock W (lock W fuel m).1).1).1.cell = lwmUnlocked := by
  refine ⟨unlock_unlocked W m h, by rw [unlock_unlocked W m h], ?_⟩
  rw [lock_unlocked W fuel m h, unlock_noWaiters W _ rfl, unlock_unlocked W _ rfl]
  exact ⟨rfl, rfl, rfl, rfl⟩

theorem unlock_unlocked_fails_fast_witness :
    unlock idleWW (mk 0) = (mk 0, .panicText "unlock of unlocked mutex") ∧
    wakeCalls (unlock idleWW (mk 0)).1.calls = wakeCalls (mk 0).calls ∧
    (lock idleWW 0 (mk 0)).2 = .ret () ∧
    (unlock idleWW (lock idleWW 0 (mk 0)).1).2 = .ret () ∧
    (unlock idleWW (unlock idleWW (lock idleWW 0 (mk 0)).1).1).2
      = .panicText "unlock of unlocked mutex" ∧
    (unlock idleWW (unlock idleWW (lock idleWW 0 (mk 0)).1).1).1.cell = lwmUnlocked :=
  unlock_unlocked_fails_fast idleWW 0 (mk 0) rfl

/-- C4: `tryLock()` is one CAS: it returns true exactly when the cell is
UNLOCKED, the cell becomes LOCKED_NO_WAITERS in that case and is unchanged
otherwise, and neither `wait` nor `wake` is called (the call log and the
provider state are unchanged). -/
theorem tryLock_single_attempt {σ : Type} (m : Machine σ) :
    (tryLock m).2 = decide (m.cell = lwmUnlocked) ∧
    (tryLock m).1.cell = (if m.cell = lwmUnlocked then lwmLockedNoWaiters else m.cell) ∧
    (tryLock m).1.calls = m.calls ∧
    (tryLock m).1.ww = m.ww := by
  unfold tryLock cas
  by_cases h : m.cell = lwmUnlocked <;> simp [h]

theorem waitLoop_held {σ : Type} (W : WaitWaker σ) (hq : W.Quiet) (t : Int) (e : Err) :
    ∀ (k fuel : Nat) (old : Int) (m : Machine σ), k < fuel → old ≠ lwmUnlocked →
      m.cell = lwmLockedHaveWaiters →
      (∀ i, i < k → (W.wait (W.after lwmLockedHaveWaiters lwmLockedHaveWaiters t i m.ww)
          lwmLockedHaveWaiters lwmLockedHaveWaiters t).2.2 = none) →
      (W.wait (W.after lwmLockedHaveWaiters lwmLockedHaveWaiters t k m.ww)
          lwmLockedHaveWaiters lwmLockedHaveWaiters t).2.2 = some e →
      (waitLoop W t fuel old m).1.cell = lwmLockedHaveWaiters ∧
      (waitLoop W t fuel old m).2 = .ret (some e) ∧
      waitCalls (waitLoop W t fuel old m).1.calls = waitCalls m.calls + (k + 1) ∧
      wakeCalls (waitLoop W t fuel old m).1.calls = wakeCalls m.calls := by
  intro k
  induction k with
  | zero =>
    intro fuel old m hk hold hc _ he
    obtain ⟨f, rfl⟩ : ∃ f, fuel = f + 1 := ⟨fuel - 1, by omega⟩
    have he' : (W.wait m.ww m.cell lwmLockedHaveWaiters t).2.2 = some e := by
      rw [hc]; exact he
    have hcell : (W.wait m.ww m.cell lwmLockedHaveWaiters t).2.1 = lwmLockedHaveWaiters := by
      rw [hq]; exact hc
    unfold waitLoop
    simp [hold, wwWait, he', hcell, waitCalls, wakeCalls, List.filter_append]
  | succ k ih =>
    intro fuel old m hk hold hc hok he
    obtain ⟨f, rfl⟩ : ∃ f, fuel = f + 1 := ⟨fuel - 1, by omega⟩
    have h0 : (W.wait m.ww m.cell lwmLockedHaveWaiters t).2.2 = none := by
      rw [hc]; exact hok 0 (by omega)
    have hcell : (W.wait m.ww m.cell lwmLockedHaveWaiters t).2.1 = lwmLockedHaveWaiters := by
      rw [hq]; exact hc
    have hne : lwmLockedHaveWaiters ≠ lwmUnlocked := by decide
    have step := ih f lwmLockedHaveWaiters
      { cell := lwmLockedHaveWaiters, ww := (W.wait m.ww m.cell lwmLockedHaveWaiters t).1,
        calls := m.calls ++ [Call.wait lwmLockedHaveWaiters t none] }
      (by omega) hne rfl
      (by
        intro i hi
        have := hok (i + 1) (by omega)
        simpa [WaitWaker.after, hc] using this)
      (by simpa [WaitWaker.after, hc] using he)
    unfold waitLoop
    simp only [hold, if_false, wwWait, h0, swap, hcell]
    refine ⟨step.1, step.2.1, ?_, ?_⟩
    · rw [step.2.2.1]; simp [waitCalls, List.filter_append]; omega
    · rw [step.2.2.2]; simp [wakeCalls, List.filter_append]

theorem doLock_held {σ : Type} (W : WaitWaker σ) (hq : W.Quiet) (t : Int) (e : Err)
    (k fuel : Nat) (m : Machine σ) (hk : k < fuel)
    (hc : m.cell = lwmLockedNoWaiters ∨ m.cell = lwmLockedHaveWaiters)
    (hok : ∀ i, i < k → (W.wait (W.after lwmLockedHaveWaiters lwmLockedHaveWaiters t i m.ww)
        lwmLockedHaveWaiters lwmLockedHaveWaiters t).2.2 = none)
    (he : (W.wait (W.after lwmLockedHaveWaiters lwmLockedHaveWaiters t k m.ww)
        lwmLockedHaveWaiters lwmLockedHaveWaiters t).2.2 = some e) :
    (doLock W fuel m t).1.cell = lwmLockedHaveWaiters ∧
    (doLock W fuel m t).2 = .ret (some e) ∧
    waitCalls (doLock W fuel m t).1.calls = waitCalls m.calls + (k + 1) ∧
    wakeCalls (doLock W fuel m t).1.calls = wakeCalls m.calls := by
  have hne : m.cell ≠ lwmUnlocked := by
    rcases hc with h | h <;> rw [h] <;> decide
  unfold doLock
  rw [spinTryLock_locked _ m hne]
  rcases hc with h | h
  · have h2 : m.cell ≠ lwmLockedHaveWaiters := by rw [h]; decide
    simp only [load, h2, swap, ne_eq, not_false_eq_true, if_true, Bool.false_eq_true, if_false]
    exact waitLoop_held W hq t e k fuel m.cell { m with cell := lwmLockedHaveWaiters }
      hk hne rfl hok he
  · simp only [load, h, ne_eq, not_true_eq_false, if_false, Bool.false_eq_true]
    have := waitLoop_held W hq t e k fuel lwmLockedHaveWaiters m hk (by decide) h hok he
    exact this

theorem waitLoop_blocked {σ : Type} (W : WaitWaker σ) (hq : W.Quiet) (t : Int) :
    ∀ (fuel : Nat) (old : Int) (m : Machine σ), old ≠ lwmUnlocked →
      m.cell = lwmLockedHaveWaiters →
      (∀ i, i < fuel → (W.wait (W.after lwmLockedHaveWaiters lwmLockedHaveWaiters t i m.ww)
          lwmLockedHaveWaiters lwmLockedHaveWaiters t).2.2 = none) →
      (waitLoop W t fuel old m).2 = .fuelOut := by
  intro fuel
  induction fuel with
  | zero =>
    intro old m hold _ _
    unfold waitLoop
    simp [hold]
  | succ f ih =>
    intro old m hold hc hok
    have h0 : (W.wait m.ww m.cell lwmLockedHaveWaiters t).2.2 = none := by
      rw [hc]; exact hok 0 (by omega)
    have hcell : (W.wait m.ww m.cell lwmLockedHaveWaiters t).2.1 = lwmLockedHaveWaiters := by
      rw [hq]; exact hc
    have step := ih lwmLockedHaveWaiters
      { cell := lwmLockedHaveWaiters, ww := (W.wait m.ww m.cell lwmLockedHaveWaiters t).1,
        calls := m.calls ++ [Call.wait lwmLockedHaveWaiters t none] }
      (by decide) rfl
      (by
        intro i hi
        have := hok (i + 1) (by omega)
        simpa [WaitWaker.after, hc] using this)
    unfold waitLoop
    simp only [hold, if_false, wwWait, h0, swap, hcell]
    exact step

theorem doLock_blocked {σ : Type} (W : WaitWaker σ) (hq : W.Quiet) (t : Int)
    (fuel : Nat) (m : Machine σ)
    (hc : m.cell = lwmLockedNoWaiters ∨ m.cell = lwmLockedHaveWaiters)
    (hok : ∀ i, i < fuel → (W.wait (W.after lwmLockedHaveWaiters lwmLockedHaveWaiters t i m.ww)
        lwmLockedHaveWaiters lwmLockedHaveWaiters t).2.2 = none) :
    (doLock W fuel m t).2 = .fuelOut := by
  have hne : m.cell ≠ lwmUnlocked := by
    rcases hc with h | h <;> rw [h] <;> decide
  unfold doLock
  rw [spinTryLock_locked _ m hne]
  rcases hc with h | h
  · have h2 : m.cell ≠ lwmLockedHaveWaiters := by rw [h]; decide
    simp only [load, h2, swap, ne_eq, not_false_eq_true, if_true, Bool.false_eq_true, if_false]
    exact waitLoop_blocked W hq t fuel m.cell { m with cell := lwmLockedHaveWaiters }
      hne rfl hok
  · simp only [load, h, ne_eq, not_true_eq_false, if_false, Bool.false_eq_true]
    exact waitLoop_blocked W hq t fuel lwmLockedHaveWaiters m (by decide) h hok

theorem waitLoop_never_panics {σ : Type} (W : WaitWaker σ) (t : Int) :
    ∀ (fuel : Nat) (old : Int) (m : Machine σ),
      (∀ e, (waitLoop W t fuel old m).2 ≠ .panicErr e) ∧
      (∀ s, (waitLoop W t fuel old m).2 ≠ .panicText s) := by
  intro fuel
  induction fuel with
  | zero =>
    intro old m
    unfold waitLoop
    by_cases h : old = lwmUnlocked <;> simp [h]
  | succ f ih =>
    intro old m
    unfold waitLoop
    by_cases h : old = lwmUnlocked
    · simp [h]
    · simp only [h, if_false]
      cases hr : (wwWait W m lwmLockedHaveWaiters t).2 with
      | none => simpa using ih _ _
      | some e => simp

theorem doLock_never_panics {σ : Type} (W : WaitWaker σ) (fuel : Nat) (m : Machine σ) (t : Int) :
    (∀ e, (doLock W fuel m t).2 ≠ .panicErr e) ∧
    (∀ s, (doLock W fuel m t).2 ≠ .panicText s) := by
  unfold doLock
  by_cases h1 : (spinTryLock lwmSpinCount m).2 = true
  · simp [h1]
  · by_cases h2 : load (spinTryLock lwmSpinCount m).1 ≠ lwmLockedHaveWaiters
    · rw [if_neg h1, if_pos h2]
      exact waitLoop_never_panics W t _ _ _
    · rw [if_neg h1, if_neg h2]
      exact waitLoop_never_panics W t _ _ _

/-- C5: on a cell equal to LOCKED_NO_WAITERS or LOCKED_HAVE_WAITERS that no
other thread changes, if the provider's `wait` returns `nil` `k` times and
then an error `e`, then (with fuel for more than `k` rounds) `lockTimeout(d)`
leaves the cell equal to LOCKED_HAVE_WAITERS, has called `wait` `k + 1` times
and `wake` never, returns false without panicking when `e` is a timeout error
and panics with `e` when it is not; as long as `wait` returns `nil` only, the
call does not end (no return, no panic); and for every machine `lockTimeout`
returns true exactly when `doLock` returned `nil`, returns false exactly when
`doLock` returned a timeout error, and panics exactly when `doLock` returned
an error that is not a timeout error. -/
theorem lockTimeout_held {σ : Type} (W : WaitWaker σ) (hq : W.Quiet) (t : Int) (e : Err)
    (k fuel : Nat) (m : Machine σ) (hk : k < fuel)
    (hc : m.cell = lwmLockedNoWaiters ∨ m.cell = lwmLockedHaveWaiters)
    (hok : ∀ i, i < k → (W.wait (W.after lwmLockedHaveWaiters lwmLockedHaveWaiters t i m.ww)
        lwmLockedHaveWaiters lwmLockedHaveWaiters t).2.2 = none)
    (he : (W.wait (W.after lwmLockedHaveWaiters lwmLockedHaveWaiters t k m.ww)
        lwmLockedHaveWaiters lwmLockedHaveWaiters t).2.2 = some e) :
    (lockTimeout W fuel m t).1.cell = lwmLockedHaveWaiters ∧
    (lockTimeout W fuel m t).2 = (if IsTimeoutErr e then .ret false else .panicErr e) ∧
    waitCalls (lockTimeout W fuel m t).1.calls = waitCalls m.calls + (k + 1) ∧
    wakeCalls (lockTimeout W fuel m t).1.calls = wakeCalls m.calls ∧
    (∀ f0 : Nat,
      (∀ i, i < f0 → (W.wait (W.after lwmLockedHaveWaiters lwmLockedHaveWaiters t i m.ww)
        lwmLockedHaveWaiters lwmLockedHaveWaiters t).2.2 = none) →
      (lockTimeout W f0 m t).2 = .fuelOut) ∧
    (∀ (W1 : WaitWaker σ) (f1 : Nat) (m1 : Machine σ) (t1 : Int),
      ((lockTimeout W1 f1 m1 t1).2 = .ret true ↔ (doLock W1 f1 m1 t1).2 = .ret none) ∧
      ((lockTimeout W1 f1 m1 t1).2 = .ret false ↔
        (doLock W1 f1 m1 t1).2 = .ret (some Err.timeout)) ∧
      (∀ e1, (lockTimeout W1 f1 m1 t1).2 = .panicErr e1 ↔
        ((doLock W1 f1 m1 t1).2 = .ret (some e1) ∧ IsTimeoutErr e1 = false))) := by
  obtain ⟨h1, h2, h3, h4⟩ := doLock_held W hq t e k fuel m hk hc hok he
  have hd : doLock W fuel m t = ((doLock W fuel m t).1, .ret (some e)) := by
    rw [← h2]
  refine ⟨?_, ?_, ?_, ?_, ?_, ?_⟩
  · unfold lockTimeout; rw [hd]; cases e <;> simpa [IsTimeoutErr] using h1
  · unfold lockTimeout; rw [hd]; cases e <;> simp [IsTimeoutErr]
  · unfold lockTimeout; rw [hd]; cases e <;> simpa [IsTimeoutErr] using h3
  · unfold lockTimeout; rw [hd]; cases e <;> simpa [IsTimeoutErr] using h4
  · intro f0 hnil
    have hb := doLock_blocked W hq t f0 m hc hnil
    have hd0 : doLock W f0 m t = ((doLock W f0 m t).1, .fuelOut) := by rw [← hb]
    unfold lockTimeout; rw [hd0]
  · intro W1 f1 m1 t1
    have hnp := doLock_never_panics W1 f1 m1 t1
    unfold lockTimeout
    rcases hr : doLock W1 f1 m1 t1 with ⟨m2, o⟩
    rw [hr] at hnp
    cases o with
    | ret a =>
      cases a with
      | none => simp
      | some e2 => cases e2 <;> simp [IsTimeoutErr]
    | panicText s => exact absurd rfl (hnp.2 s)
    | panicErr e2 => exact absurd rfl (hnp.1 e2)
    | fuelOut => simp

theorem lockTimeout_held_witness :
    (lockTimeout (countdownWW Err.timeout) 3 ⟨1, 2, []⟩ 5).1.cell = lwmLockedHaveWaiters ∧
    (lockTimeout (countdownWW Err.timeout) 3 ⟨1, 2, []⟩ 5).2 = .ret false :=
  have h := lockTimeout_held (countdownWW Err.timeout) (by intro _ _ _ _; rfl) 5 Err.timeout
    2 3 ⟨1, 2, []⟩ (by decide) (Or.inl rfl) (by decide) rfl
  ⟨h.1, h.2.1⟩

end LwMutex

/-! ## int32 facts -/

theorem not32_minInt32 : not32 minInt32 = 2147483647 := by decide

theorem toBits_maxInt32 : toBits 2147483647 = 2 ^ 31 - 1 := by decide

theorem toBits_minInt32 : toBits minInt32 = 2 ^ 31 * 1 := by decide

theorem and32_mask (v : Int) : and32 v (not32 minInt32) = v % 2147483648 := by
  rw [not32_minInt32]
  unfold and32
  rw [toBits_maxInt32, Nat.and_pow_two_sub_one_eq_mod]
  unfold ofBits wrap32 toBits
  simp only [Int.ofNat_eq_coe]
  omega

theorem or32_minInt32 (v : Int) (h0 : 0 ≤ v) (h1 : v < 2147483648) :
    or32 v minInt32 = v - 2147483648 := by
  unfold or32
  have hb : toBits v < 2 ^ 31 := by unfold toBits; omega
  rw [toBits_minInt32, Nat.or_comm, ← Nat.mul_add_lt_is_or hb 1]
  unfold ofBits wrap32 toBits
  simp only [Int.ofNat_eq_coe]
  omega

theorem add32_small (a b : Int) (h0 : -2147483648 ≤ a + b) (h1 : a + b < 2147483648) :
    add32 a b = a + b := by
  unfold add32 wrap32; omega

/-! ## lwEvent: sequential properties -/

namespace LwEvent

theorem waiters_mod (v : Int) : waiters (v % 2147483648) = waiters v := by
  unfold waiters toBits; omega

theorem waiters_sub (v : Int) : waiters (v - 2147483648) = waiters v := by
  unfold waiters toBits; omega

theorem waiters_nonneg (v : Int) (h0 : 0 ≤ v) (h1 : v < 2147483648) :
    (waiters v : Int) = v := by
  unfold waiters toBits; omega

theorem cas_same {σ : Type} (m : Machine σ) (new : Int) :
    cas m m.cell new = ({ m with cell := new }, true) := by
  simp [cas]

theorem obtainOrChange_signalled {σ : Type} (c : Nat) (m : Machine σ) (inc : Int)
    (h : m.cell < 0) :
    obtainOrChange (c + 1) m inc
      = ({ m with cell := m.cell % 2147483648 }, .ret (m.cell % 2147483648, true)) := by
  have hn : ¬ (0 ≤ m.cell) := by omega
  simp [obtainOrChange, cas_same, and32_mask, load, h, hn]

theorem obtainOrChange_change {σ : Type} (c : Nat) (m : Machine σ) (inc : Int)
    (h : 0 ≤ m.cell) (hi : inc ≠ 0) :
    obtainOrChange (c + 1) m inc
      = ({ m with cell := add32 m.cell inc }, .ret (add32 m.cell inc, false)) := by
  have hn : ¬ (m.cell < 0) := by omega
  simp [obtainOrChange, cas_same, load, hi, hn]

theorem obtainOrChange_zero {σ : Type} (c : Nat) (m : Machine σ) (h : 0 ≤ m.cell) :
    obtainOrChange (c + 1) m 0 = (m, .ret (m.cell, false)) := by
  simp [obtainOrChange, load, h]

theorem set_signalled {σ : Type} (W : WaitWaker σ) (c : Nat) (m : Machine σ) (h : m.cell < 0) :
    set W (c + 1) m = (m, .ret ()) := by
  simp [set, load, h]

theorem set_clear {σ : Type} (W : WaitWaker σ) (c : Nat) (m : Machine σ)
    (h0 : 0 ≤ m.cell) (h1 : m.cell < 2147483648) :
    set W (c + 1) m =
      (if 0 < m.cell then wwWake W { m with cell := m.cell - 2147483648 } 1
        else { m with cell := m.cell - 2147483648 }, .ret ()) := by
  have hn : ¬ (m.cell < 0) := by omega
  have hcas := cas_same m (m.cell - 2147483648)
  by_cases hp : 0 < m.cell
  · simp [set, load, hn, or32_minInt32 m.cell h0 h1, hcas, hp]
  · simp [set, load, hn, or32_minInt32 m.cell h0 h1, hcas, hp]

theorem waitTimeout_obtains {σ : Type} (W : WaitWaker σ) (c fuel : Nat) (m : Machine σ)
    (d : Int) (h : m.cell < 0) :
    waitTimeout W (c + 1) fuel m d = ({ m with cell := m.cell % 2147483648 }, .ret true) := by
  simp [waitTimeout, obtainOrChange_signalled c m 1 h]

/-- C6: on a cell whose signal bit is set, `waitTimeout(d)` returns true for
every `d`, makes no provider call, clears the signal bit and keeps the low 31
bits; the cell written by `init(true)` and the cell left by `set()` on any
`int32` state are such cells, so `waitTimeout` after them returns true without
calling `wait`. -/
theorem waitTimeout_signalled {σ : Type} (W : WaitWaker σ) (c fuel : Nat) (m m0 : Machine σ)
    (d : Int) (h : m.cell < 0) (h0 : IsInt32 m0.cell) :
    (waitTimeout W (c + 1) fuel m d).2 = .ret true ∧
    (waitTimeout W (c + 1) fuel m d).1.calls = m.calls ∧
    (waitTimeout W (c + 1) fuel m d).1.ww = m.ww ∧
    signalled (waitTimeout W (c + 1) fuel m d).1.cell = false ∧
    waiters (waitTimeout W (c + 1) fuel m d).1.cell = waiters m.cell ∧
    signalled (set W (c + 1) m0).1.cell = true ∧
    (waitTimeout W (c + 1) fuel (set W (c + 1) m0).1 d).2 = .ret true ∧
    waitCalls (waitTimeout W (c + 1) fuel (set W (c + 1) m0).1 d).1.calls
      = waitCalls m0.calls ∧
    signalled (init m0 true).cell = true ∧
    (waitTimeout W (c + 1) fuel (init m0 true) d).2 = .ret true ∧
    (waitTimeout W (c + 1) fuel (init m0 true) d).1.calls = m0.calls := by
  obtain ⟨_, hlt⟩ := h0
  have hset : (set W (c + 1) m0).1.cell < 0 ∧
      waitCalls (set W (c + 1) m0).1.calls = waitCalls m0.calls := by
    by_cases hs : m0.cell < 0
    · rw [set_signalled W c m0 hs]; exact ⟨hs, rfl⟩
    · rw [set_clear W c m0 (by omega) hlt]
      by_cases hp : 0 < m0.cell
      · rw [if_pos hp]
        refine ⟨?_, ?_⟩
        · show m0.cell - 2147483648 < 0
          omega
        · simp [wwWake, waitCalls, List.filter_append]
      · rw [if_neg hp]
        refine ⟨?_, rfl⟩
        show m0.cell - 2147483648 < 0
        omega
  have hinit : (init m0 true).cell < 0 := by simp [init, store, minInt32]
  rw [waitTimeout_obtains W c fuel m d h, waitTimeout_obtains W c fuel _ d hset.1,
    waitTimeout_obtains W c fuel _ d hinit]
  refine ⟨rfl, rfl, rfl, ?_, ?_, ?_, rfl, hset.2, ?_, rfl, ?_⟩
  · simp only [signalled, decide_eq_false_iff_not]; omega
  · exact waiters_mod m.cell
  · simpa [signalled] using hset.1
  · simpa [signalled] using hinit
  · simp [init, store]

theorem waitTimeout_signalled_witness :
    (waitTimeout idleWW 1 0 (mk (-2147483645)) 7).2 = .ret true ∧
    (waitTimeout idleWW 1 0 (mk (-2147483645)) 7).1.cell = 3 :=
  have h := waitTimeout_signalled idleWW 0 0 (mk (-2147483645)) (mk 3) 7
    (by decide) (by decide)
  ⟨h.1, by decide⟩

/-- C7: with no interference `set()` returns; on a cell whose signal bit is
set it leaves the cell as it is and does not call `wake`; otherwise the cell
gets the signal bit and keeps its low 31 bits, and `wake(1)` is called exactly
once if the waiter count was positive and not at all if it was 0.  A second
`set()` changes neither the cell nor the call log. -/
theorem set_protocol {σ : Type} (W : WaitWaker σ) (c : Nat) (m : Machine σ)
    (h : IsInt32 m.cell) :
    (set W (c + 1) m).2 = .ret () ∧
    (set W (c + 1) m).1.cell = (if m.cell < 0 then m.cell else m.cell - 2147483648) ∧
    signalled (set W (c + 1) m).1.cell = true ∧
    waiters (set W (c + 1) m).1.cell = waiters m.cell ∧
    IsInt32 (set W (c + 1) m).1.cell ∧
    (set W (c + 1) m).1.calls
      = m.calls ++ (if m.cell < 0 then [] else if 0 < waiters m.cell then [Call.wake 1] else []) ∧
    (set W (c + 1) (set W (c + 1) m).1).1.cell = (set W (c + 1) m).1.cell ∧
    (set W (c + 1) (set W (c + 1) m).1).1.calls = (set W (c + 1) m).1.calls := by
  obtain ⟨hlo, hhi⟩ := h
  by_cases hs : m.cell < 0
  · rw [set_signalled W c m hs, set_signalled W c m hs]
    refine ⟨rfl, by simp [hs], by simpa [signalled] using hs, rfl, ⟨hlo, hhi⟩, by simp [hs],
      rfl, rfl⟩
  · have h0 : 0 ≤ m.cell := by omega
    have hw : (0 < waiters m.cell) ↔ 0 < m.cell := by
      have := waiters_nonneg m.cell h0 hhi
      omega
    have key : (set W (c + 1) m).1.cell = m.cell - 2147483648 ∧
        (set W (c + 1) m).1.calls
          = m.calls ++ (if 0 < waiters m.cell then [Call.wake 1] else []) := by
      rw [set_clear W c m h0 hhi]
      by_cases hp : 0 < m.cell
      · rw [if_pos hp, if_pos (hw.2 hp)]; exact ⟨rfl, rfl⟩
      · rw [if_neg hp, if_neg (fun hq => hp (hw.1 hq))]; exact ⟨rfl, by simp⟩
    have hneg : (set W (c + 1) m).1.cell < 0 := by rw [key.1]; omega
    have hret : (set W (c + 1) m).2 = .ret () := by rw [set_clear W c m h0 hhi]
    rw [set_signalled W c _ hneg]
    refine ⟨hret, by rw [key.1, if_neg hs], by simpa [signalled] using hneg, ?_, ?_, ?_, rfl, rfl⟩
    · rw [key.1]; exact waiters_sub m.cell
    · rw [key.1]; exact ⟨by omega, by omega⟩
    · rw [key.2, if_neg hs]

theorem set_protocol_witness :
    (set idleWW 1 (mk 2)).2 = .ret () ∧
    (set idleWW 1 (mk 2)).1.cell = -2147483646 ∧
    (set idleWW 1 (mk 2)).1.calls = [Call.wake 1] :=
  have h := set_protocol idleWW 0 (mk 2) (by decide)
  ⟨h.1, h.2.1, h.2.2.2.2.2.1⟩

/-- C8 as stated fails: the call registers on the cell 0 (count 1), a
concurrent `set()` sets the signal bit, `wait` reports a timeout; the call
then returns true and the waiter count is still 1, not 0. -/
theorem waitTimeout_timeout_signalled_counterexample :
    (waitTimeout (setDuringWaitWW (some Err.timeout)) 1 1 (mk 0) 5).2 = .ret true ∧
    (waitTimeout (setDuringWaitWW (some Err.timeout)) 1 1 (mk 0) 5).1.cell = 1 ∧
    ¬ ((waitTimeout (setDuringWaitWW (some Err.timeout)) 1 1 (mk 0) 5).2 = .ret false ∧
       waiters (waitTimeout (setDuringWaitWW (some Err.timeout)) 1 1 (mk 0) 5).1.cell = 0) := by
  decide

/-- One round of the loop of `waitTimeout` whose `wait` reports a timeout while
the cell holds `v`: a non-signalled `v` is decremented and the call returns
false, a signalled `v` loses its signal bit and the call returns true. -/
theorem waitLoop_timeout {σ : Type} (W : WaitWaker σ) (c f : Nat) (m : Machine σ)
    (new d : Int)
    (hw : (W.wait m.ww m.cell new d).2.2 = some Err.timeout)
    (hv : IsInt32 (W.wait m.ww m.cell new d).2.1) :
    (if (W.wait m.ww m.cell new d).2.1 < 0 then
      (waitLoop W (c + 1) d (f + 1) new m).2 = .ret true ∧
      signalled (waitLoop W (c + 1) d (f + 1) new m).1.cell = false
    else
      (waitLoop W (c + 1) d (f + 1) new m).2 = .ret false ∧
      (waitLoop W (c + 1) d (f + 1) new m).1.cell = (W.wait m.ww m.cell new d).2.1 - 1) ∧
    (waitLoop W (c + 1) d (f + 1) new m).1.calls
      = m.calls ++ [Call.wait new d (some Err.timeout)] := by
  obtain ⟨hlo, hhi⟩ := hv
  have hwait : wwWait W m new d
      = ({ cell := (W.wait m.ww m.cell new d).2.1,
           ww := (W.wait m.ww m.cell new d).1,
           calls := m.calls ++ [Call.wait new d (some Err.timeout)] },
         some Err.timeout) := by
    simp [wwWait, hw]
  by_cases hs : (W.wait m.ww m.cell new d).2.1 < 0
  · rw [if_pos hs]
    have hob := obtainOrChange_signalled c
      ({ cell := (W.wait m.ww m.cell new d).2.1,
         ww := (W.wait m.ww m.cell new d).1,
         calls := m.calls ++ [Call.wait new d (some Err.timeout)] } : Machine σ)
      (-1) hs
    have hres : waitLoop W (c + 1) d (f + 1) new m
        = ({ cell := (W.wait m.ww m.cell new d).2.1 % 2147483648,
             ww := (W.wait m.ww m.cell new d).1,
             calls := m.calls ++ [Call.wait new d (some Err.timeout)] },
           .ret true) := by
      simp only [waitLoop, hwait, timedOut, IsTimeoutErr, hob]
      simp
    rw [hres]
    refine ⟨⟨rfl, ?_⟩, rfl⟩
    simp only [signalled, decide_eq_false_iff_not]
    omega
  · rw [if_neg hs]
    have hob := obtainOrChange_change c
      ({ cell := (W.wait m.ww m.cell new d).2.1,
         ww := (W.wait m.ww m.cell new d).1,
         calls := m.calls ++ [Call.wait new d (some Err.timeout)] } : Machine σ)
      (-1) (by show 0 ≤ (W.wait m.ww m.cell new d).2.1; omega) (by decide)
    have hadd : add32 (W.wait m.ww m.cell new d).2.1 (-1)
        = (W.wait m.ww m.cell new d).2.1 - 1 := by
      rw [add32_small _ _ (by omega) (by omega)]; rfl
    have hres : waitLoop W (c + 1) d (f + 1) new m
        = ({ cell := (W.wait m.ww m.cell new d).2.1 - 1,
             ww := (W.wait m.ww m.cell new d).1,
             calls := m.calls ++ [Call.wait new d (some Err.timeout)] },
           .ret false) := by
      simp only [waitLoop, hwait, timedOut, IsTimeoutErr, hob, hadd]
      simp
    rw [hres]
    exact ⟨⟨rfl, rfl⟩, rfl⟩

/-- A `waitTimeout` call on a non-signalled cell below `2^31 - 1` registers:
it adds one to the cell and enters its loop with the new value. -/
theorem waitTimeout_registers {σ : Type} (W : WaitWaker σ) (c f : Nat) (m : Machine σ) (d : Int)
    (h0 : 0 ≤ m.cell) (h1 : m.cell < 2147483647) :
    waitTimeout W (c + 1) f m d
      = waitLoop W (c + 1) d f (m.cell + 1) { m with cell := m.cell + 1 } := by
  have hreg : obtainOrChange (c + 1) m 1
      = ({ m with cell := m.cell + 1 }, .ret (m.cell + 1, false)) := by
    rw [obtainOrChange_change c m 1 h0 (by decide), add32_small m.cell 1 (by omega) (by omega)]
  simp [waitTimeout, hreg]

/-- C8, amended: a `waitTimeout` call on a non-signalled cell with count `c`
registers (the cell becomes `c + 1`); when its `wait` then reports a timeout and
the cell holds `v` at that moment, then if `v` is not signalled the call
writes `v - 1` (so the count is back to `c` when `v = c + 1`) and returns
false, and if the signal bit of `v` is set the call clears the signal bit and
returns true.  In both cases `wait` was called once and `wake` never.  The
same holds in every later round of the loop (state `m1`, last seen value
`new`) in which `wait` reports a timeout. -/
theorem waitTimeout_timeout {σ : Type} (W : WaitWaker σ) (c f : Nat) (m : Machine σ) (d : Int)
    (h0 : 0 ≤ m.cell) (h1 : m.cell < 2147483647)
    (hw : (W.wait m.ww (m.cell + 1) (m.cell + 1) d).2.2 = some Err.timeout)
    (hv : IsInt32 (W.wait m.ww (m.cell + 1) (m.cell + 1) d).2.1) :
    (if (W.wait m.ww (m.cell + 1) (m.cell + 1) d).2.1 < 0 then
      (waitTimeout W (c + 1) (f + 1) m d).2 = .ret true ∧
      signalled (waitTimeout W (c + 1) (f + 1) m d).1.cell = false
    else
      (waitTimeout W (c + 1) (f + 1) m d).2 = .ret false ∧
      (waitTimeout W (c + 1) (f + 1) m d).1.cell
        = (W.wait m.ww (m.cell + 1) (m.cell + 1) d).2.1 - 1) ∧
    (waitTimeout W (c + 1) (f + 1) m d).1.calls
      = m.calls ++ [Call.wait (m.cell + 1) d (some Err.timeout)] ∧
    (∀ (m1 : Machine σ) (new : Int),
      (W.wait m1.ww m1.cell new d).2.2 = some Err.timeout →
      IsInt32 (W.wait m1.ww m1.cell new d).2.1 →
      (if (W.wait m1.ww m1.cell new d).2.1 < 0 then
        (waitLoop W (c + 1) d (f + 1) new m1).2 = .ret true ∧
        signalled (waitLoop W (c + 1) d (f + 1) new m1).1.cell = false
      else
        (waitLoop W (c + 1) d (f + 1) new m1).2 = .ret false ∧
        (waitLoop W (c + 1) d (f + 1) new m1).1.cell
          = (W.wait m1.ww m1.cell new d).2.1 - 1)) := by
  rw [waitTimeout_registers W c (f + 1) m d h0 h1]
  have h := waitLoop_timeout W c f { m with cell := m.cell + 1 } (m.cell + 1) d hw hv
  exact ⟨h.1, h.2, fun m1 new hw1 hv1 => (waitLoop_timeout W c f m1 new d hw1 hv1).1⟩

theorem waitTimeout_timeout_witness :
    (waitTimeout timeoutWW 1 1 (mk 4) 5).2 = .ret false ∧
    (waitTimeout timeoutWW 1 1 (mk 4) 5).1.cell = 4 :=
  have h := waitTimeout_timeout timeoutWW 0 0 (mk 4) 5 (by decide) (by decide) rfl (by decide)
  h.1

/-- C9 fails on the code: from the cell 0 a `waitTimeout` call registers
(count 1), a concurrent `set()` signals the event while the call is inside
`wait`, the call is woken, obtains the event and returns true, and the cell
is 1 on return: the waiter count has not gone back to 0.  The same happens
from the count 5: the cell is 6 on return. -/
theorem waitTimeout_obtain_keeps_count :
    (waitTimeout (setDuringWaitWW none) 1 1 (mk 0) (-1)).2 = .ret true ∧
    (waitTimeout (setDuringWaitWW none) 1 1 (mk 0) (-1)).1.cell = 1 ∧
    waiters (waitTimeout (setDuringWaitWW none) 1 1 (mk 0) (-1)).1.cell = 1 ∧
    (waitTimeout (setDuringWaitWW none) 1 1 (mk 5) (-1)).2 = .ret true ∧
    (waitTimeout (setDuringWaitWW none) 1 1 (mk 5) (-1)).1.cell = 6 := by
  decide

end LwEvent

/-! ## lwMutex: mutual exclusion -/

namespace LwMutex

theorem isOwner_lockSpinNext (i : Nat) : isOwner (lockSpinNext i) = false := by
  unfold lockSpinNext; split <;> rfl

theorem isOwner_unlockSpinNext (i : Nat) : isOwner (unlockSpinNext i) = false := by
  unfold unlockSpinNext; split <;> rfl

/-- A step that makes its thread an owner starts from an unlocked cell and
leaves a locked cell. -/
theorem threadStep_acquire (cell : Int) (pc : Pc) (ch : Choice)
    (h : isOwner pc = false) (h1 : isOwner (threadStep cell pc ch).2 = true) :
    cell = lwmUnlocked ∧ (threadStep cell pc ch).1 ≠ lwmUnlocked := by
  cases pc <;> cases ch <;>
    simp only [threadStep, lwmUnlocked, lwmLockedNoWaiters, lwmLockedHaveWaiters] at h h1 ⊢ <;>
    (try split_ifs at h1 ⊢) <;>
    first
      | (simp_all [isOwner_lockSpinNext, isOwner_unlockSpinNext]; done)
      | simp_all [isOwner]

/-- A step of an owner that remains an owner does not write the cell. -/
theorem threadStep_owner (cell : Int) (pc : Pc) (ch : Choice)
    (h : isOwner pc = true) (h1 : isOwner (threadStep cell pc ch).2 = true) :
    (threadStep cell pc ch).1 = cell := by
  cases pc <;> cases ch <;>
    simp only [threadStep, lwmUnlocked, lwmLockedNoWaiters, lwmLockedHaveWaiters] at h h1 ⊢ <;>
    (try split_ifs at h1 ⊢) <;>
    first
      | (simp_all [isOwner_lockSpinNext, isOwner_unlockSpinNext]; done)
      | simp_all [isOwner]

/-- A step of a thread that is not an owner and does not become one leaves
the cell as it is or writes a locked value. -/
theorem threadStep_other (cell : Int) (pc : Pc) (ch : Choice)
    (h : isOwner pc = false) (h1 : isOwner (threadStep cell pc ch).2 = false) :
    (threadStep cell pc ch).1 = cell ∨ (threadStep cell pc ch).1 ≠ lwmUnlocked := by
  cases pc <;> cases ch <;>
    simp only [threadStep, lwmUnlocked, lwmLockedNoWaiters, lwmLockedHaveWaiters] at h h1 ⊢ <;>
    (try split_ifs at h1 ⊢) <;>
    first
      | (simp_all [isOwner_lockSpinNext, isOwner_unlockSpinNext]; done)
      | simp_all [isOwner]

/-- The invariant behind mutual exclusion. -/
theorem reachable_inv (s : Sys) (h : Reachable s) :
    (∀ t1 t2, isOwner (s.pcs t1) = true → isOwner (s.pcs t2) = true → t1 = t2) ∧
    (∀ t, isOwner (s.pcs t) = true → s.cell ≠ lwmUnlocked) := by
  induction h with
  | start =>
    constructor
    · intro t1 t2 h1 _; simp [Sys.start, isOwner] at h1
    · intro t h1; simp [Sys.start, isOwner] at h1
  | step s t ch _ ih =>
    obtain ⟨ih1, ih2⟩ := ih
    have owner_t : ∀ u, u ≠ t → isOwner (s.pcs u) = true →
        isOwner (threadStep s.cell (s.pcs t) ch).2 = true → False := by
      intro u hu hou hnew
      cases hold : isOwner (s.pcs t) with
      | true => exact hu (ih1 u t hou hold)
      | false => exact ih2 u hou (threadStep_acquire s.cell (s.pcs t) ch hold hnew).1
    constructor
    · intro t1 t2 h1 h2
      simp only [Sys.step, Function.update_apply] at h1 h2
      by_cases e1 : t1 = t
      · by_cases e2 : t2 = t
        · rw [e1, e2]
        · rw [if_pos e1] at h1; rw [if_neg e2] at h2
          exact absurd (owner_t t2 e2 h2 h1) id
      · by_cases e2 : t2 = t
        · rw [if_neg e1] at h1; rw [if_pos e2] at h2
          exact absurd (owner_t t1 e1 h1 h2) id
        · rw [if_neg e1] at h1; rw [if_neg e2] at h2
          exact ih1 t1 t2 h1 h2
    · intro u hu
      simp only [Sys.step, Function.update_apply] at hu ⊢
      by_cases e : u = t
      · rw [if_pos e] at hu
        cases hold : isOwner (s.pcs t) with
        | true =>
          rw [threadStep_owner s.cell (s.pcs t) ch hold hu]
          exact ih2 t hold
        | false => exact (threadStep_acquire s.cell (s.pcs t) ch hold hu).2
      · rw [if_neg e] at hu
        have hc := ih2 u hu
        cases hnew : isOwner (threadStep s.cell (s.pcs t) ch).2 with
        | true => exact absurd (owner_t u e hu hnew) id
        | false =>
          cases hold : isOwner (s.pcs t) with
          | true => exact absurd (ih1 u t hu hold) e
          | false =>
            rcases threadStep_other s.cell (s.pcs t) ch hold hnew with h3 | h3
            · rw [h3]; exact hc
            · exact h3

/-- C1: mutual exclusion.  In every state reachable from the unlocked cell by
interleaving the atomic steps of `tryLock`, `doLock` and `unlock` (with
`unlock` called only by an owner, `wait` returning at any moment with or
without an error, `wake` not touching the cell) at most one thread is an
owner, and the cell is not UNLOCKED while there is an owner. -/
theorem mutual_exclusion (s : Sys) (h : Reachable s) (t1 t2 : Nat)
    (h1 : isOwner (s.pcs t1) = true) (h2 : isOwner (s.pcs t2) = true) :
    t1 = t2 ∧ s.cell ≠ lwmUnlocked :=
  ⟨(reachable_inv s h).1 t1 t2 h1 h2, (reachable_inv s h).2 t1 h1⟩

theorem mutual_exclusion_witness :
    isOwner (((Sys.start.step 0 Choice.callTryLock).step 1 Choice.callTryLock).pcs 0) = true ∧
    isOwner (((Sys.start.step 0 Choice.callTryLock).step 1 Choice.callTryLock).pcs 1) = false ∧
    ((Sys.start.step 0 Choice.callTryLock).step 1 Choice.callTryLock).cell ≠ lwmUnlocked := by
  have hr : Reachable ((Sys.start.step 0 Choice.callTryLock).step 1 Choice.callTryLock) :=
    Reachable.step _ 1 _ (Reachable.step _ 0 _ Reachable.start)
  have h0 : isOwner (((Sys.start.step 0 Choice.callTryLock).step 1 Choice.callTryLock).pcs 0)
      = true := by decide
  refine ⟨h0, ?_, (mutual_exclusion _ hr 0 0 h0 h0).2⟩
  cases h1 : isOwner (((Sys.start.step 0 Choice.callTryLock).step 1 Choice.callTryLock).pcs 1) with
  | false => rfl
  | true => exact absurd (mutual_exclusion _ hr 1 0 h1 h0).1 (by decide)

end LwMutex

/-! ## lwEvent: the waiter count -/

namespace LwEvent

theorem set_cell (v : Int) (h0 : -2147483648 ≤ v) (h1 : v < 2147483648) :
    (set idleWW 1 (mk v)).1.cell = if v < 0 then v else v - 2147483648 := by
  by_cases hs : v < 0
  · rw [if_pos hs]
    have := set_signalled idleWW 0 (mk v) hs
    exact congrArg (fun r => r.1.cell) this
  · rw [if_neg hs]
    have := set_clear idleWW 0 (mk v) (by show 0 ≤ v; omega) h1
    have h2 := congrArg (fun r => r.1.cell) this
    simp only at h2
    rw [show set idleWW 1 (mk v) = set idleWW (0 + 1) (mk v) from rfl, h2]
    by_cases hp : 0 < (mk v).cell
    · rw [if_pos hp]; rfl
    · rw [if_neg hp]; rfl

theorem obtainOrChange_neg (v inc : Int) (h : v < 0) :
    obtainOrChange 1 (mk v) inc
      = ({ mk v with cell := v % 2147483648 }, .ret (v % 2147483648, true)) :=
  obtainOrChange_signalled 0 (mk v) inc h

theorem obtainOrChange_inc (v inc : Int) (h : 0 ≤ v) (hi : inc ≠ 0) :
    obtainOrChange 1 (mk v) inc
      = ({ mk v with cell := add32 v inc }, .ret (add32 v inc, false)) :=
  obtainOrChange_change 0 (mk v) inc h hi

theorem obtainOrChange_recheck (v : Int) (h : 0 ≤ v) :
    obtainOrChange 1 (mk v) 0 = (mk v, .ret (v, false)) :=
  obtainOrChange_zero 0 (mk v) h

/-- The invariant of the step relation: the cell is an `int32`, its low 31
bits are at least the number of registered calls in progress and at most the
number of registrations, which is below `2^31 - 1`. -/
theorem evReachable_inv (s : EvSys) (h : EvReachable s) :
    -2147483648 ≤ s.cell ∧ s.cell < 2147483648 ∧
    (s.cell < 0 → (s.inProgress : Int) ≤ s.cell + 2147483648 ∧
      s.cell + 2147483648 ≤ (s.registrations : Int)) ∧
    (0 ≤ s.cell → (s.inProgress : Int) ≤ s.cell ∧ s.cell ≤ (s.registrations : Int)) ∧
    s.registrations < 2147483647 := by
  induction h with
  | init b =>
    cases b <;> simp [EvSys.start, init, store, mk, minInt32]
  | step s s1 op _ hstep ih =>
    obtain ⟨hlo, hhi, hneg, hpos, hreg⟩ := ih
    cases op with
    | set =>
      simp only [EvSys.step, Option.some.injEq] at hstep
      subst hstep
      simp only [set_cell s.cell hlo hhi]
      by_cases hs : s.cell < 0
      · simp only [if_pos hs]
        refine ⟨hlo, hhi, hneg, hpos, hreg⟩
      · simp only [if_neg hs]
        refine ⟨by omega, by omega, ?_, ?_, hreg⟩
        · intro _; have := hpos (by omega); omega
        · intro hc; omega
    | register =>
      by_cases hs : s.cell < 0
      · simp only [EvSys.step, obtainOrChange_neg s.cell 1 hs, Option.some.injEq] at hstep
        subst hstep
        have := hneg hs
        dsimp only
        refine ⟨by omega, by omega, ?_, ?_, hreg⟩
        · intro hc; omega
        · intro _; omega
      · have h0 : 0 ≤ s.cell := by omega
        have hp := hpos h0
        simp only [EvSys.step, obtainOrChange_inc s.cell 1 h0 (by decide)] at hstep
        by_cases hr : s.registrations + 1 < 2147483647
        · rw [if_pos hr] at hstep
          simp only [Option.some.injEq] at hstep
          subst hstep
          have hadd : add32 s.cell 1 = s.cell + 1 := add32_small _ _ (by omega) (by omega)
          simp only [hadd]
          refine ⟨by omega, by omega, ?_, ?_, hr⟩
          · intro hc; omega
          · intro _; push_cast; omega
        · rw [if_neg hr] at hstep
          exact absurd hstep (by simp)
    | recheck =>
      by_cases hz : s.inProgress = 0
      · simp [EvSys.step, hz] at hstep
      · by_cases hs : s.cell < 0
        · simp only [EvSys.step, hz, if_false, obtainOrChange_neg s.cell 0 hs,
            Option.some.injEq] at hstep
          subst hstep
          have := hneg hs
          dsimp only
          refine ⟨by omega, by omega, ?_, ?_, hreg⟩
          · intro hc; omega
          · intro _; omega
        · have h0 : 0 ≤ s.cell := by omega
          simp only [EvSys.step, hz, if_false, obtainOrChange_recheck s.cell h0,
            Option.some.injEq] at hstep
          subst hstep
          exact ⟨hlo, hhi, hneg, hpos, hreg⟩
    | timeout =>
      by_cases hz : s.inProgress = 0
      · simp [EvSys.step, hz] at hstep
      · by_cases hs : s.cell < 0
        · simp only [EvSys.step, hz, if_false, obtainOrChange_neg s.cell (-1) hs,
            Option.some.injEq] at hstep
          subst hstep
          have := hneg hs
          dsimp only
          refine ⟨by omega, by omega, ?_, ?_, hreg⟩
          · intro hc; omega
          · intro _; omega
        · have h0 : 0 ≤ s.cell := by omega
          have hp := hpos h0
          simp only [EvSys.step, hz, if_false, obtainOrChange_inc s.cell (-1) h0 (by decide),
            Option.some.injEq] at hstep
          subst hstep
          have hadd : add32 s.cell (-1) = s.cell - 1 := by
            rw [add32_small _ _ (by omega) (by omega)]; rfl
          simp only [hadd]
          refine ⟨by omega, by omega, ?_, ?_, hreg⟩
          · intro hc; omega
          · intro _; omega

theorem waiters_neg (v : Int) (h0 : -2147483648 ≤ v) (h1 : v < 0) :
    (waiters v : Int) = v + 2147483648 := by
  unfold waiters toBits; omega

/-- C10: in every state reachable from `init(false)` or `init(true)` by `set`
and by the `obtainOrChange` calls of `waitTimeout` (register, re-check, and
time-out only by a call that registered), with fewer than `2^31 - 1`
registrations, the low 31 bits of the cell are at least the number of
registered calls in progress (and at most the number of registrations); so
whenever `obtainOrChange(-1)` is applied to a non-signalled cell the waiter
count is positive, and the step writes the cell minus one, which is still
non-negative. -/
theorem waiter_count_no_underflow (s : EvSys) (h : EvReachable s) :
    s.inProgress ≤ waiters s.cell ∧
    waiters s.cell ≤ s.registrations ∧
    s.registrations < 2147483647 ∧
    (∀ s1, s.step EvOp.timeout = some s1 → signalled s.cell = false →
      0 < waiters s.cell ∧ s1.cell = s.cell - 1 ∧ signalled s1.cell = false ∧
      waiters s1.cell + 1 = waiters s.cell) := by
  obtain ⟨hlo, hhi, hneg, hpos, hreg⟩ := evReachable_inv s h
  have hcount : s.inProgress ≤ waiters s.cell ∧ waiters s.cell ≤ s.registrations := by
    by_cases hs : s.cell < 0
    · have h1 := waiters_neg s.cell hlo hs
      have h2 := hneg hs
      omega
    · have h1 := waiters_nonneg s.cell (by omega) hhi
      have h2 := hpos (by omega)
      omega
  refine ⟨hcount.1, hcount.2, hreg, ?_⟩
  intro s1 hstep hsig
  have h0 : 0 ≤ s.cell := by
    simp only [signalled, decide_eq_false_iff_not] at hsig
    omega
  have hp := hpos h0
  have hw := waiters_nonneg s.cell h0 hhi
  by_cases hz : s.inProgress = 0
  · simp [EvSys.step, hz] at hstep
  · simp only [EvSys.step, hz, if_false, obtainOrChange_inc s.cell (-1) h0 (by decide),
      Option.some.injEq] at hstep
    subst hstep
    have hadd : add32 s.cell (-1) = s.cell - 1 := by
      rw [add32_small _ _ (by omega) (by omega)]; rfl
    simp only [hadd]
    have hw1 := waiters_nonneg (s.cell - 1) (by omega) (by omega)
    refine ⟨by omega, trivial, ?_, by omega⟩
    simp only [signalled, decide_eq_false_iff_not]
    omega

theorem waiter_count_no_underflow_witness :
    EvReachable { cell := 1, inProgress := 1, registrations := 2 } ∧
    (1 : Nat) ≤ waiters 1 ∧
    EvSys.step { cell := 1, inProgress := 1, registrations := 2 } EvOp.timeout
      = some { cell := 0, inProgress := 0, registrations := 2 } := by
  have hr : EvReachable { cell := 1, inProgress := 1, registrations := 2 } :=
    EvReachable.step { cell := 2, inProgress := 2, registrations := 2 } _ EvOp.timeout
      (EvReachable.step { cell := 1, inProgress := 1, registrations := 1 } _ EvOp.register
        (EvReachable.step (EvSys.start false) _ EvOp.register (EvReachable.init false)
          (by decide))
        (by decide))
      (by decide)
  exact ⟨hr, (waiter_count_no_underflow _ hr).1, by decide⟩

end LwEvent


/-! ## lwEvent: one set, one consumer -/

namespace LwEvent

/-- A step other than `set` on a reachable non-signalled state leaves the
cell non-signalled and does not obtain the event. -/
theorem step_clear (s s1 : EvSys) (op : EvOp) (h : EvReachable s) (h0 : 0 ≤ s.cell)
    (hop : op ≠ EvOp.set) (hstep : s.step op = some s1) :
    0 ≤ s1.cell ∧ s.obtains op = false := by
  obtain ⟨hlo, hhi, _, hpos, hreg⟩ := evReachable_inv s h
  have hp := hpos h0
  cases op with
  | set => exact absurd rfl hop
  | register =>
    simp only [EvSys.step, obtainOrChange_inc s.cell 1 h0 (by decide)] at hstep
    by_cases hr : s.registrations + 1 < 2147483647
    · rw [if_pos hr] at hstep
      simp only [Option.some.injEq] at hstep
      subst hstep
      have hadd : add32 s.cell 1 = s.cell + 1 := add32_small _ _ (by omega) (by omega)
      refine ⟨?_, ?_⟩
      · show 0 ≤ add32 s.cell 1
        rw [hadd]; omega
      · simp [EvSys.obtains, obtainOrChange_inc s.cell 1 h0 (by decide)]
    · rw [if_neg hr] at hstep
      exact absurd hstep (by simp)
  | recheck =>
    by_cases hz : s.inProgress = 0
    · simp [EvSys.step, hz] at hstep
    · simp only [EvSys.step, hz, if_false, obtainOrChange_recheck s.cell h0,
        Option.some.injEq] at hstep
      subst hstep
      exact ⟨h0, by simp [EvSys.obtains, obtainOrChange_recheck s.cell h0]⟩
  | timeout =>
    by_cases hz : s.inProgress = 0
    · simp [EvSys.step, hz] at hstep
    · simp only [EvSys.step, hz, if_false, obtainOrChange_inc s.cell (-1) h0 (by decide),
        Option.some.injEq] at hstep
      subst hstep
      have hadd : add32 s.cell (-1) = s.cell - 1 := by
        rw [add32_small _ _ (by omega) (by omega)]; rfl
      refine ⟨?_, ?_⟩
      · show 0 ≤ add32 s.cell (-1)
        rw [hadd]; omega
      · simp [EvSys.obtains, obtainOrChange_inc s.cell (-1) h0 (by decide)]

/-- A step other than `set` on a signalled state obtains the event and clears
the signal bit. -/
theorem step_signalled (s s1 : EvSys) (op : EvOp) (hs : s.cell < 0)
    (hop : op ≠ EvOp.set) (hstep : s.step op = some s1) :
    0 ≤ s1.cell ∧ s.obtains op = true := by
  cases op with
  | set => exact absurd rfl hop
  | register =>
    simp only [EvSys.step, obtainOrChange_neg s.cell 1 hs, Option.some.injEq] at hstep
    subst hstep
    refine ⟨?_, by simp [EvSys.obtains, obtainOrChange_neg s.cell 1 hs]⟩
    show 0 ≤ s.cell % 2147483648
    omega
  | recheck =>
    by_cases hz : s.inProgress = 0
    · simp [EvSys.step, hz] at hstep
    · simp only [EvSys.step, hz, if_false, obtainOrChange_neg s.cell 0 hs,
        Option.some.injEq] at hstep
      subst hstep
      refine ⟨?_, by simp [EvSys.obtains, obtainOrChange_neg s.cell 0 hs]⟩
      show 0 ≤ s.cell % 2147483648
      omega
  | timeout =>
    by_cases hz : s.inProgress = 0
    · simp [EvSys.step, hz] at hstep
    · simp only [EvSys.step, hz, if_false, obtainOrChange_neg s.cell (-1) hs,
        Option.some.injEq] at hstep
      subst hstep
      refine ⟨?_, by simp [EvSys.obtains, obtainOrChange_neg s.cell (-1) hs]⟩
      show 0 ≤ s.cell % 2147483648
      omega

theorem run_cons (s s2 : EvSys) (op : EvOp) (ops : List EvOp) (n : Nat)
    (h : s.run (op :: ops) = some (s2, n)) :
    ∃ s1 k, s.step op = some s1 ∧ s1.run ops = some (s2, k) ∧
      n = (if s.obtains op then 1 else 0) + k := by
  simp only [EvSys.run] at h
  cases hstep : s.step op with
  | none => rw [hstep] at h; exact absurd h (by simp)
  | some s1 =>
    simp only [hstep] at h
    cases hrun : s1.run ops with
    | none => simp [hrun] at h
    | some r =>
      obtain ⟨s3, k⟩ := r
      simp only [hrun, Option.some.injEq, Prod.mk.injEq] at h
      exact ⟨s1, k, rfl, by rw [← h.1]; exact hrun, h.2.symm⟩

/-- Without `set`, no call obtains the event from a non-signalled state. -/
theorem run_clear (ops : List EvOp) :
    ∀ (s s2 : EvSys) (n : Nat), EvReachable s → 0 ≤ s.cell → EvOp.set ∉ ops →
      s.run ops = some (s2, n) → n = 0 ∧ 0 ≤ s2.cell := by
  induction ops with
  | nil =>
    intro s s2 n _ h0 _ hrun
    simp only [EvSys.run, Option.some.injEq, Prod.mk.injEq] at hrun
    exact ⟨hrun.2.symm, by rw [← hrun.1]; exact h0⟩
  | cons op ops ih =>
    intro s s2 n h h0 hno hrun
    obtain ⟨s1, k, hstep, hrest, hn⟩ := run_cons s s2 op ops n hrun
    have hop : op ≠ EvOp.set := fun e => hno (by simp [e])
    have hnot : EvOp.set ∉ ops := fun e => hno (by simp [e])
    have hc := step_clear s s1 op h h0 hop hstep
    have hr := ih s1 s2 k (EvReachable.step s s1 op h hstep) hc.1 hnot hrest
    rw [hc.2, hr.1] at hn
    exact ⟨by simpa using hn, hr.2⟩

/-- From a signalled state and without `set`, the first step obtains the
event and no later step does. -/
theorem run_signalled (ops : List EvOp) (s s2 : EvSys) (n : Nat) (h : EvReachable s)
    (hs : s.cell < 0) (hno : EvOp.set ∉ ops) (hrun : s.run ops = some (s2, n)) :
    n = (if ops.isEmpty then 0 else 1) ∧ (ops ≠ [] → 0 ≤ s2.cell) := by
  cases ops with
  | nil =>
    simp only [EvSys.run, Option.some.injEq, Prod.mk.injEq] at hrun
    exact ⟨by simpa using hrun.2.symm, fun e => absurd rfl e⟩
  | cons op ops =>
    obtain ⟨s1, k, hstep, hrest, hn⟩ := run_cons s s2 op ops n hrun
    have hop : op ≠ EvOp.set := fun e => hno (by simp [e])
    have hnot : EvOp.set ∉ ops := fun e => hno (by simp [e])
    have hc := step_signalled s s1 op hs hop hstep
    have hr := run_clear ops s1 s2 k (EvReachable.step s s1 op h hstep) hc.1 hnot hrest
    rw [hc.2, hr.1] at hn
    exact ⟨by simpa using hn, fun _ => hr.2⟩

/-- C11: after one `set()` on a reachable non-signalled state and with no
further `set()`, at most one `waitTimeout` call obtains the event: the first
`obtainOrChange` step after the `set` obtains it and clears the signal bit,
and no later step reports `obtained = true`.  `obtainOrChange` on a signalled
cell clears the signal bit and reports `obtained = true`; on a non-signalled
cell it reports `obtained = false`.  With three registered waiters and one
`set`, exactly one call returns true, whether the three time out (the other
two return false) or re-check (the other two stay registered). -/
theorem auto_reset_single_consumption (s s1 s2 : EvSys) (ops : List EvOp) (n c : Nat)
    (m : Machine Unit) (inc : Int)
    (h : EvReachable s) (hs : signalled s.cell = false)
    (hset : s.step EvOp.set = some s1) (hno : EvOp.set ∉ ops)
    (hrun : s1.run ops = some (s2, n)) :
    n ≤ 1 ∧ n = (if ops.isEmpty then 0 else 1) ∧
    signalled s1.cell = true ∧
    (ops ≠ [] → signalled s2.cell = false) ∧
    (if m.cell < 0 then
      (obtainOrChange (c + 1) m inc).2 = .ret (m.cell % 2147483648, true) ∧
      signalled (obtainOrChange (c + 1) m inc).1.cell = false
    else ∃ v, (obtainOrChange (c + 1) m inc).2 = .ret (v, false)) ∧
    (EvSys.start false).run [EvOp.register, EvOp.register, EvOp.register, EvOp.set,
        EvOp.timeout, EvOp.timeout, EvOp.timeout]
      = some ({ cell := 1, inProgress := 0, registrations := 3 }, 1) ∧
    (EvSys.start false).run [EvOp.register, EvOp.register, EvOp.register, EvOp.set,
        EvOp.recheck, EvOp.recheck, EvOp.recheck]
      = some ({ cell := 3, inProgress := 2, registrations := 3 }, 1) := by
  obtain ⟨hlo, hhi, _, _, _⟩ := evReachable_inv s h
  have h0 : 0 ≤ s.cell := by
    simp only [signalled, decide_eq_false_iff_not] at hs
    omega
  have hr1 : EvReachable s1 := EvReachable.step s s1 EvOp.set h hset
  have hneg : s1.cell < 0 := by
    simp only [EvSys.step, Option.some.injEq] at hset
    subst hset
    show (set idleWW 1 (mk s.cell)).1.cell < 0
    rw [set_cell s.cell hlo hhi, if_neg (by omega)]
    omega
  have hr := run_signalled ops s1 s2 n hr1 hneg hno hrun
  refine ⟨?_, hr.1, by simpa [signalled] using hneg, ?_, ?_, by decide, by decide⟩
  · rw [hr.1]; split <;> omega
  · intro hne
    have := hr.2 hne
    simp only [signalled, decide_eq_false_iff_not]
    omega
  · by_cases hm : m.cell < 0
    · rw [if_pos hm, obtainOrChange_signalled c m inc hm]
      refine ⟨rfl, ?_⟩
      simp only [signalled, decide_eq_false_iff_not]
      omega
    · rw [if_neg hm]
      by_cases hi : inc = 0
      · subst hi
        exact ⟨m.cell, by rw [obtainOrChange_zero c m (by omega)]⟩
      · exact ⟨add32 m.cell inc, by rw [obtainOrChange_change c m inc (by omega) hi]⟩

theorem auto_reset_single_consumption_witness :
    (1 : Nat) ≤ 1 ∧
    EvSys.run { cell := -2147483645, inProgress := 3, registrations := 3 }
        [EvOp.timeout, EvOp.recheck, EvOp.timeout]
      = some ({ cell := 2, inProgress := 1, registrations := 3 }, 1) := by
  have hr : EvReachable { cell := 3, inProgress := 3, registrations := 3 } :=
    EvReachable.step { cell := 2, inProgress := 2, registrations := 2 } _ EvOp.register
      (EvReachable.step { cell := 1, inProgress := 1, registrations := 1 } _ EvOp.register
        (EvReachable.step (EvSys.start false) _ EvOp.register (EvReachable.init false)
          (by decide))
        (by decide))
      (by decide)
  have hrun : EvSys.run { cell := -2147483645, inProgress := 3, registrations := 3 }
        [EvOp.timeout, EvOp.recheck, EvOp.timeout]
      = some ({ cell := 2, inProgress := 1, registrations := 3 }, 1) := by decide
  exact ⟨(auto_reset_single_consumption _ _ _ _ 1 0 (mk 0) 0 hr (by decide) (by decide)
    (by decide) hrun).1, hrun⟩

end LwEvent


/-! ## Condition variable over a shared waiter list -/

namespace CondWaitlist

theorem lockerOps_append (a b : List Ev) : lockerOps (a ++ b) = lockerOps a ++ lockerOps b := by
  induction a with
  | nil => rfl
  | cons e a ih => cases e <;> simp [lockerOps, ih]

theorem listOps_append (a b : List Ev) : listOps (a ++ b) = listOps a ++ listOps b := by
  induction a with
  | nil => rfl
  | cons e a ih => cases e <;> simp [listOps, ih]

end CondWaitlist


namespace CondWaitlist

theorem newWaiter_spec (env : Env) (slot : Nat) :
    ∀ (fuel : Nat) (c : Cond),
      (newWaiter env fuel c slot).1.waiters.length = c.waiters.length ∧
      lockerOps (newWaiter env fuel c slot).1.trace = lockerOps c.trace ∧
      listOps (newWaiter env fuel c slot).1.trace = listOps c.trace ∧
      (∀ w, (newWaiter env fuel c slot).2 = .ret w →
        w.slot = slot ∧ (newWaiter env fuel c slot).1.waiters = c.waiters.set slot w.ev) := by
  intro fuel
  induction fuel with
  | zero =>
    intro c
    exact ⟨rfl, rfl, rfl, fun w hw => by simp [newWaiter] at hw⟩
  | succ f ih =>
    intro c
    cases hc : env.createEvent (waiterID env.pid (nextID c).2) with
    | none =>
      simp only [newWaiter, hc]
      refine ⟨by simp [record, nextID], ?_, ?_, ?_⟩
      · simp [record, nextID, lockerOps_append, lockerOps]
      · simp [record, nextID, listOps_append, listOps]
      · intro w hw
        simp only [Exec.ret.injEq] at hw
        subst hw
        exact ⟨rfl, by simp [record, nextID]⟩
    | some err =>
      by_cases he : errorsIsNotExist err = true
      · have hstep : newWaiter env (f + 1) c slot
            = newWaiter env f (record (nextID c).1
                (Ev.create (waiterID env.pid (nextID c).2))) slot := by
          simp [newWaiter, hc, he]
        rw [hstep]
        obtain ⟨i1, i2, i3, i4⟩ :=
          ih (record (nextID c).1 (Ev.create (waiterID env.pid (nextID c).2)))
        refine ⟨by rw [i1]; simp [record, nextID], ?_, ?_, ?_⟩
        · rw [i2]; simp [record, nextID, lockerOps_append, lockerOps]
        · rw [i3]; simp [record, nextID, listOps_append, listOps]
        · intro w hw
          obtain ⟨j1, j2⟩ := i4 w hw
          exact ⟨j1, by rw [j2]; simp [record, nextID]⟩
      · simp only [newWaiter, hc, he]
        refine ⟨by simp [record, nextID], ?_, ?_, ?_⟩
        · simp [record, nextID, lockerOps_append, lockerOps]
        · simp [record, nextID, listOps_append, listOps]
        · intro w hw
          simp at hw

end CondWaitlist


namespace CondWaitlist

theorem cleanupLoop_trace (w : Waiter) :
    ∀ (n i : Nat) (c : Cond), ∃ rest,
      (cleanupLoop w n i c).trace = c.trace ++ rest ∧ lockerOps rest = [] ∧ listOps rest = [] := by
  intro n
  induction n with
  | zero => intro i c; exact ⟨[], by simp [cleanupLoop], rfl, rfl⟩
  | succ k ih =>
    intro i c
    by_cases h : w.slot = i
    · exact ⟨[Ev.destroy w.ev], by simp [cleanupLoop, h, record], rfl, rfl⟩
    · obtain ⟨rest, h1, h2, h3⟩ := ih (i + 1) c
      exact ⟨rest, by simp [cleanupLoop, h, h1], h2, h3⟩

theorem cleanupWaiter_trace (c : Cond) (w : Waiter) : ∃ rest,
    (cleanupWaiter c w).trace = c.trace ++ rest ∧ lockerOps rest = [] := by
  obtain ⟨rest, h1, h2, _⟩ := cleanupLoop_trace w (record c Ev.listLock).waiters.length 0
    (record c Ev.listLock)
  refine ⟨[Ev.listLock] ++ rest ++ [Ev.listUnlock], ?_, ?_⟩
  · simp [cleanupWaiter, record, h1] at h1 ⊢
    rw [h1]; simp
  · simp [lockerOps_append, lockerOps, h2]

theorem addToWaitersList_spec (env : Env) (fuel : Nat) (c : Cond)
    (h : c.waiters.length < env.maxCondWaiters) :
    (addToWaitersList env fuel c).1.waiters.length = c.waiters.length + 1 ∧
    lockerOps (addToWaitersList env fuel c).1.trace = lockerOps c.trace ∧
    listOps (addToWaitersList env fuel c).1.trace
      = listOps c.trace ++ [Ev.listLock, Ev.listUnlock] ∧
    (∀ w, (addToWaitersList env fuel c).2 = .ret w →
      (addToWaitersList env fuel c).1.waiters = c.waiters ++ [w.ev]) := by
  have hn : ¬ (record c Ev.listLock).waiters.length ≥ env.maxCondWaiters := by
    simp only [record]; omega
  obtain ⟨n1, n2, n3, n4⟩ := newWaiter_spec env (c.waiters.length + 1 - 1) fuel
    { waiters := pushBack c.waiters, seq := c.seq, trace := c.trace ++ [Ev.listLock] }
  have hadd : addToWaitersList env fuel c
      = (record (newWaiter env fuel
            { waiters := pushBack c.waiters, seq := c.seq, trace := c.trace ++ [Ev.listLock] }
            (c.waiters.length + 1 - 1)).1 Ev.listUnlock,
         (newWaiter env fuel
            { waiters := pushBack c.waiters, seq := c.seq, trace := c.trace ++ [Ev.listLock] }
            (c.waiters.length + 1 - 1)).2) := by
    simp only [addToWaitersList, if_neg hn]
    simp [record, pushBack]
  rw [hadd]
  refine ⟨?_, ?_, ?_, ?_⟩
  · show (newWaiter env fuel _ _).1.waiters.length = _
    rw [n1]; simp [pushBack]
  · show lockerOps ((newWaiter env fuel _ _).1.trace ++ [Ev.listUnlock]) = _
    rw [lockerOps_append, n2]; simp [lockerOps_append, lockerOps]
  · show listOps ((newWaiter env fuel _ _).1.trace ++ [Ev.listUnlock]) = _
    rw [listOps_append, n3]; simp [listOps_append, listOps]
  · intro w hw
    obtain ⟨_, j2⟩ := n4 w hw
    show (newWaiter env fuel _ _).1.waiters = _
    rw [j2]
    simp [pushBack]

/-- C13: if the waiter array already holds `MaxCondWaiters` or more entries,
`doWait` (hence `wait` and `waitTimeout`) panics with `ErrTooManyWaiters`,
the array is unchanged, the list mutex was locked and released again, and no
call was made on the caller's locker.  If it holds fewer entries,
`addToWaitersList` leaves the array one entry longer (the new entry holds the
waiter's id when it returns) without any call on the caller's locker, it
locks and releases the list mutex, and the calls `doWait` makes on the locker
come after it. -/
theorem doWait_overflow (env : Env) (fuel : Nat) (c : Cond) (t : Int) :
    if env.maxCondWaiters ≤ c.waiters.length then
      doWait env fuel c t
        = ({ c with trace := c.trace ++ [Ev.listLock, Ev.listUnlock] },
           .panic GoErr.tooManyWaiters) ∧
      waitTimeout env fuel c t
        = ({ c with trace := c.trace ++ [Ev.listLock, Ev.listUnlock] },
           .panic GoErr.tooManyWaiters) ∧
      wait env fuel c
        = ({ c with trace := c.trace ++ [Ev.listLock, Ev.listUnlock] },
           .panic GoErr.tooManyWaiters)
    else
      (addToWaitersList env fuel c).1.waiters.length = c.waiters.length + 1 ∧
      lockerOps (addToWaitersList env fuel c).1.trace = lockerOps c.trace ∧
      listOps (addToWaitersList env fuel c).1.trace
        = listOps c.trace ++ [Ev.listLock, Ev.listUnlock] ∧
      (match (addToWaitersList env fuel c).2 with
        | .ret w => (addToWaitersList env fuel c).1.waiters = c.waiters ++ [w.ev]
        | _ => True) ∧
      (∃ rest, (doWait env fuel c t).1.trace = (addToWaitersList env fuel c).1.trace ++ rest ∧
        lockerOps rest = (match (addToWaitersList env fuel c).2 with
          | .ret w => [Ev.unlockL, Ev.wait w.ev t, Ev.lockL]
          | _ => [])) := by
  by_cases h : env.maxCondWaiters ≤ c.waiters.length
  · rw [if_pos h]
    have hadd : addToWaitersList env fuel c
        = ({ c with trace := c.trace ++ [Ev.listLock, Ev.listUnlock] },
           .panic GoErr.tooManyWaiters) := by
      have hge : (record c Ev.listLock).waiters.length ≥ env.maxCondWaiters := h
      simp only [addToWaitersList, if_pos hge]
      simp [record]
    have hd : ∀ t0, doWait env fuel c t0
        = ({ c with trace := c.trace ++ [Ev.listLock, Ev.listUnlock] },
           .panic GoErr.tooManyWaiters) := by
      intro t0; simp only [doWait, hadd]
    exact ⟨hd t, hd t, by simp only [wait, hd]⟩
  · rw [if_neg h]
    obtain ⟨a1, a2, a3, a4⟩ := addToWaitersList_spec env fuel c (by omega)
    refine ⟨a1, a2, a3, ?_, ?_⟩
    · cases hr : (addToWaitersList env fuel c).2 with
      | ret w => exact a4 w hr
      | panic e => trivial
      | fuelOut => trivial
    · rcases hadd : addToWaitersList env fuel c with ⟨c1, o⟩
      cases o with
      | ret w =>
        obtain ⟨rest, r1, r2⟩ := cleanupWaiter_trace
          (record (record (record c1 Ev.unlockL) (Ev.wait w.ev t)) Ev.lockL) w
        refine ⟨[Ev.unlockL, Ev.wait w.ev t, Ev.lockL] ++ rest, ?_, ?_⟩
        · simp only [doWait, hadd]
          rw [r1]; simp [record]
        · simp [lockerOps_append, lockerOps, r2]
      | panic e => exact ⟨[], by simp [doWait, hadd], rfl⟩
      | fuelOut => exact ⟨[], by simp [doWait, hadd], rfl⟩

end CondWaitlist


/-! ## Condition variables: the paired locker and the sequence counter -/

theorem CondWaitlist.doWait_returns (env : CondWaitlist.Env) (fuel : Nat)
    (c c1 : CondWaitlist.Cond) (t : Int) (b : Bool)
    (h : CondWaitlist.doWait env fuel c t = (c1, .ret b)) :
    ∃ id, CondWaitlist.lockerOps c1.trace
        = CondWaitlist.lockerOps c.trace
          ++ [CondWaitlist.Ev.unlockL, CondWaitlist.Ev.wait id t, CondWaitlist.Ev.lockL] ∧
      b = env.waitEvent id t := by
  by_cases hov : c.waiters.length < env.maxCondWaiters
  · obtain ⟨_, a2, _, _⟩ := CondWaitlist.addToWaitersList_spec env fuel c hov
    rcases hadd : CondWaitlist.addToWaitersList env fuel c with ⟨c0, o⟩
    rw [hadd] at a2
    cases o with
    | ret w =>
      obtain ⟨rest, r1, r2⟩ := CondWaitlist.cleanupWaiter_trace
        (CondWaitlist.record (CondWaitlist.record (CondWaitlist.record c0
          CondWaitlist.Ev.unlockL) (CondWaitlist.Ev.wait w.ev t)) CondWaitlist.Ev.lockL) w
      simp only [CondWaitlist.doWait, hadd, Prod.mk.injEq, Exec.ret.injEq] at h
      refine ⟨w.ev, ?_, h.2.symm⟩
      rw [← h.1, r1]
      simp only [CondWaitlist.record, CondWaitlist.lockerOps_append, r2, List.append_nil]
      simp only at a2
      rw [a2]
      simp [CondWaitlist.lockerOps]
    | panic e => simp [CondWaitlist.doWait, hadd] at h
    | fuelOut => simp [CondWaitlist.doWait, hadd] at h
  · have hge : (CondWaitlist.record c CondWaitlist.Ev.listLock).waiters.length
        ≥ env.maxCondWaiters := by
      simp only [CondWaitlist.record]; omega
    simp [CondWaitlist.doWait, CondWaitlist.addToWaitersList, if_pos hge] at h

/-- C14: every normal return of `wait` and of `waitTimeout`, in the waiter-list
variant and in the sequence-counter variant, has made on the paired locker
exactly one `Unlock` and then exactly one `Lock`, with the blocking wait
between them and nothing else; `waitTimeout` returns the result of the event
wait in the waiter-list variant, and in the sequence-counter variant it
returns true exactly when the futex wait returned `nil` and false exactly when
it returned a timeout error. -/
theorem cond_mutex_handoff
    (env : CondWaitlist.Env) (fuel : Nat) (c c1 d d1 : CondWaitlist.Cond) (t : Int) (b : Bool)
    (fenv : CondFutex.Env) (f f1 g g1 : CondFutex.Cond) (t2 : Int) (b2 : Bool)
    (h1 : CondWaitlist.waitTimeout env fuel c t = (c1, .ret b))
    (h2 : CondWaitlist.wait env fuel d = (d1, .ret ()))
    (h3 : CondFutex.waitTimeout fenv f t2 = (f1, .ret b2))
    (h4 : CondFutex.wait fenv g = (g1, .ret ())) :
    (∃ id, CondWaitlist.lockerOps c1.trace
        = CondWaitlist.lockerOps c.trace
          ++ [CondWaitlist.Ev.unlockL, CondWaitlist.Ev.wait id t, CondWaitlist.Ev.lockL] ∧
      b = env.waitEvent id t) ∧
    (∃ id, CondWaitlist.lockerOps d1.trace
        = CondWaitlist.lockerOps d.trace
          ++ [CondWaitlist.Ev.unlockL, CondWaitlist.Ev.wait id (-1), CondWaitlist.Ev.lockL]) ∧
    f1.trace = f.trace ++ [CondFutex.Ev.unlockL, CondFutex.Ev.wait f.cell t2, CondFutex.Ev.lockL] ∧
    (b2 = true ↔ fenv.wait f.cell f.cell t2 = none) ∧
    (b2 = false ↔ ∃ e, fenv.wait f.cell f.cell t2 = some e ∧ IsTimeoutErr e = true) ∧
    g1.trace = g.trace ++ [CondFutex.Ev.unlockL, CondFutex.Ev.wait g.cell (-1), CondFutex.Ev.lockL] ∧
    fenv.wait g.cell g.cell (-1) = none := by
  have hf : f1.trace
        = f.trace ++ [CondFutex.Ev.unlockL, CondFutex.Ev.wait f.cell t2, CondFutex.Ev.lockL] ∧
      (b2 = true ↔ fenv.wait f.cell f.cell t2 = none) ∧
      (b2 = false ↔ ∃ e, fenv.wait f.cell f.cell t2 = some e ∧ IsTimeoutErr e = true) := by
    cases hw : fenv.wait f.cell f.cell t2 with
    | none =>
      simp only [CondFutex.waitTimeout, CondFutex.record, hw, Prod.mk.injEq,
        Outcome.ret.injEq] at h3
      obtain ⟨e1, e2⟩ := h3
      subst e1; subst e2
      simp
    | some e =>
      cases e with
      | timeout =>
        simp [CondFutex.waitTimeout, CondFutex.record, hw, IsTimeoutErr] at h3
        obtain ⟨e1, e2⟩ := h3
        subst e1; subst e2
        simp [IsTimeoutErr]
      | other =>
        simp [CondFutex.waitTimeout, CondFutex.record, hw, IsTimeoutErr] at h3
  have hg : g1.trace
        = g.trace ++ [CondFutex.Ev.unlockL, CondFutex.Ev.wait g.cell (-1), CondFutex.Ev.lockL] ∧
      fenv.wait g.cell g.cell (-1) = none := by
    cases hw : fenv.wait g.cell g.cell (-1) with
    | none =>
      simp only [CondFutex.wait, CondFutex.record, hw, Prod.mk.injEq, and_true] at h4
      subst h4
      simp
    | some e => simp [CondFutex.wait, CondFutex.record, hw] at h4
  refine ⟨CondWaitlist.doWait_returns env fuel c c1 t b h1, ?_, hf.1, hf.2.1, hf.2.2, hg.1, hg.2⟩
  rcases hd : CondWaitlist.doWait env fuel d (-1) with ⟨d0, o⟩
  cases o with
  | ret b0 =>
    simp only [CondWaitlist.wait, hd, Prod.mk.injEq, and_true] at h2
    obtain ⟨id, r1, _⟩ := CondWaitlist.doWait_returns env fuel d d0 (-1) b0 hd
    exact ⟨id, by rw [← h2]; exact r1⟩
  | panic e => simp [CondWaitlist.wait, hd] at h2
  | fuelOut => simp [CondWaitlist.wait, hd] at h2


theorem cond_mutex_handoff_witness :
    (∃ id, CondWaitlist.lockerOps
        (CondWaitlist.waitTimeout CondWaitlist.demoEnv 1
          { waiters := [5], seq := 0, trace := [] } 3).1.trace
        = CondWaitlist.lockerOps []
          ++ [CondWaitlist.Ev.unlockL, CondWaitlist.Ev.wait id 3, CondWaitlist.Ev.lockL] ∧
      true = CondWaitlist.demoEnv.waitEvent id 3) ∧
    (CondFutex.waitTimeout CondFutex.demoEnv { cell := 9, trace := [] } 5).2 = .ret false ∧
    (CondFutex.waitTimeout CondFutex.demoEnv { cell := 9, trace := [] } 5).1.trace
      = [CondFutex.Ev.unlockL, CondFutex.Ev.wait 9 5, CondFutex.Ev.lockL] := by
  have h := cond_mutex_handoff CondWaitlist.demoEnv 1
    { waiters := [5], seq := 0, trace := [] }
    (CondWaitlist.waitTimeout CondWaitlist.demoEnv 1 { waiters := [5], seq := 0, trace := [] } 3).1
    { waiters := [], seq := 3, trace := [] }
    (CondWaitlist.wait CondWaitlist.demoEnv 1 { waiters := [], seq := 3, trace := [] }).1
    3 true CondFutex.demoEnv
    { cell := 9, trace := [] }
    (CondFutex.waitTimeout CondFutex.demoEnv { cell := 9, trace := [] } 5).1
    { cell := 4, trace := [] }
    (CondFutex.wait CondFutex.demoEnv { cell := 4, trace := [] }).1
    5 false (by decide) (by decide) (by decide) (by decide)
  exact ⟨h.1, by decide, h.2.2.1⟩

namespace CondFutex

theorem calls_cell (env : Env) :
    ∀ (ops : List Bool) (c : Cond),
      (calls env ops c).cell = wrap32 (c.cell + (ops.length : Int)) ∨
      ((calls env ops c).cell = c.cell ∧ ops = []) := by
  intro ops
  induction ops with
  | nil => intro c; exact Or.inr ⟨rfl, rfl⟩
  | cons b ops ih =>
    intro c
    left
    have hs : (signal env c).1.cell = wrap32 (c.cell + 1) := by
      simp only [signal, futexAdd, record, add32]
      cases env.wake 1 <;> rfl
    have hb : (broadcast env c).1.cell = wrap32 (c.cell + 1) := by
      simp only [broadcast, futexAdd, record, add32]
      cases env.wakeAll <;> rfl
    cases b with
    | true =>
      simp only [calls, List.length_cons]
      rcases ih (broadcast env c).1 with h | ⟨h, he⟩
      · rw [h, hb]; unfold wrap32; push_cast; omega
      · rw [h, hb, he]; simp
    | false =>
      simp only [calls, List.length_cons]
      rcases ih (signal env c).1 with h | ⟨h, he⟩
      · rw [h, hs]; unfold wrap32; push_cast; omega
      · rw [h, hs, he]; simp

/-- C15: `signal()` adds exactly 1 to the sequence counter and then calls
`wake(1)`; `broadcast()` adds exactly 1 and then calls `wakeAll()`; each
panics exactly when the wake reports an error.  The counter after the call
differs from the value before it, so a wait on a snapshot taken before the
call does not block; and after any `n` calls, `0 < n < 2^32`, the counter
differs from the snapshot taken before them. -/
theorem signal_bumps_counter (env : Env) (c : Cond) (ops : List Bool)
    (h0 : 0 < ops.length) (h1 : ops.length < 4294967296) :
    (signal env c).1.cell = add32 c.cell 1 ∧
    (signal env c).1.trace = c.trace ++ [Ev.add 1, Ev.wake 1] ∧
    (signal env c).2 = (match env.wake 1 with | some e => .panicErr e | none => .ret ()) ∧
    (broadcast env c).1.cell = add32 c.cell 1 ∧
    (broadcast env c).1.trace = c.trace ++ [Ev.add 1, Ev.wakeAll] ∧
    (broadcast env c).2 = (match env.wakeAll with | some e => .panicErr e | none => .ret ()) ∧
    (signal env c).1.cell ≠ c.cell ∧
    (broadcast env c).1.cell ≠ c.cell ∧
    futexBlocks (signal env c).1.cell c.cell = false ∧
    futexBlocks (broadcast env c).1.cell c.cell = false ∧
    (calls env ops c).cell = wrap32 (c.cell + (ops.length : Int)) ∧
    (calls env ops c).cell ≠ c.cell ∧
    futexBlocks (calls env ops c).cell c.cell = false := by
  have hs : (signal env c).1 = { cell := add32 c.cell 1, trace := c.trace ++ [Ev.add 1, Ev.wake 1] } := by
    simp only [signal, futexAdd, record]
    cases env.wake 1 <;> simp
  have hb : (broadcast env c).1
      = { cell := add32 c.cell 1, trace := c.trace ++ [Ev.add 1, Ev.wakeAll] } := by
    simp only [broadcast, futexAdd, record]
    cases env.wakeAll <;> simp
  have hne : add32 c.cell 1 ≠ c.cell := by
    unfold add32 wrap32; omega
  have hcalls : (calls env ops c).cell = wrap32 (c.cell + (ops.length : Int)) := by
    rcases calls_cell env ops c with h | ⟨_, he⟩
    · exact h
    · rw [he] at h0; exact absurd h0 (by simp)
  have hne2 : (calls env ops c).cell ≠ c.cell := by
    rw [hcalls]; unfold wrap32; omega
  rw [hs, hb]
  refine ⟨rfl, rfl, ?_, rfl, rfl, ?_, hne, hne, ?_, ?_, hcalls, hne2, ?_⟩
  · simp only [signal]; cases env.wake 1 <;> rfl
  · simp only [broadcast]; cases env.wakeAll <;> rfl
  · simpa [futexBlocks] using hne
  · simpa [futexBlocks] using hne
  · simpa [futexBlocks] using hne2

theorem signal_bumps_counter_witness :
    (signal demoEnv { cell := 2147483647, trace := [] }).1.cell = -2147483648 ∧
    (signal demoEnv { cell := 2147483647, trace := [] }).1.trace = [Ev.add 1, Ev.wake 1] ∧
    (calls demoEnv [true, false, true] { cell := 2147483647, trace := [] }).cell
      = -2147483646 := by
  have h := signal_bumps_counter demoEnv { cell := 2147483647, trace := [] }
    [true, false, true] (by decide) (by decide)
  exact ⟨h.1, h.2.1, by decide⟩

end CondFutex


/-! ## SysV semaphore -/

namespace Sema

theorem int16_small (v : Int) (h0 : -32768 ≤ v) (h1 : v ≤ 32767) : int16 v = v := by
  unfold int16; omega

/-- Every system call made by `add` is the same `semop` with the one buffer
`{0, int16(value), 0}`; with fuel left there is at least one, and there are
never more than the fuel allows. -/
theorem add_calls {κ : Type} (K : Kernel κ) (sem : Semaphore) (value : Int) :
    ∀ (fuel : Nat) (s : Sys κ), ∃ k, k ≤ fuel ∧ (0 < fuel → 0 < k) ∧
      (add K fuel s sem value).1.calls
        = s.calls ++ List.replicate k (SysCall.semop sem.id [⟨0, int16 value, 0⟩]) := by
  intro fuel
  induction fuel with
  | zero => intro s; exact ⟨0, le_refl _, fun h => h, by simp [add, UninterruptedSyscall]⟩
  | succ f ih =>
    intro s
    by_cases hi : (semAdd K s sem.id value).2 = some GoErr.interrupted
    · obtain ⟨k, hk0, _, hk⟩ := ih (semAdd K s sem.id value).1
      refine ⟨k + 1, by omega, fun _ => by omega, ?_⟩
      have hstep : add K (f + 1) s sem value = add K f (semAdd K s sem.id value).1 sem value := by
        simp only [add, UninterruptedSyscall, if_pos hi]
      rw [hstep, hk]
      simp [semAdd, sysSemop, List.replicate_succ]
    · refine ⟨1, by omega, fun _ => by omega, ?_⟩
      simp only [add, UninterruptedSyscall, if_neg hi]
      simp [semAdd, sysSemop]

/-- A call of `add` whose `semop` is not interrupted makes exactly one system
call. -/
theorem add_once {κ : Type} (K : Kernel κ) (fuel : Nat) (s : Sys κ) (sem : Semaphore)
    (value : Int)
    (h : (K.semop s.k sem.id [⟨0, int16 value, 0⟩]).2 ≠ some GoErr.interrupted) :
    add K (fuel + 1) s sem value
      = ({ k := (K.semop s.k sem.id [⟨0, int16 value, 0⟩]).1,
           calls := s.calls ++ [SysCall.semop sem.id [⟨0, int16 value, 0⟩]] },
         .ret (K.semop s.k sem.id [⟨0, int16 value, 0⟩]).2) := by
  have hi : ¬ (semAdd K s sem.id value).2 = some GoErr.interrupted := h
  simp only [add, UninterruptedSyscall, if_neg hi]
  rfl

/-- The calls of `signal` and `wait` are those of `add`. -/
theorem signal_calls_eq {κ : Type} (K : Kernel κ) (fuel : Nat) (s : Sys κ) (sem : Semaphore)
    (n : Int) :
    (signal K fuel s sem n).1 = (add K fuel s sem n).1 ∧
    (wait K fuel s sem).1 = (add K fuel s sem (-1)).1 := by
  constructor
  · simp only [signal]
    rcases add K fuel s sem n with ⟨s1, o⟩
    cases o with
    | ret a => cases a <;> rfl
    | panic e => rfl
    | fuelOut => rfl
  · simp only [wait]
    rcases add K fuel s sem (-1) with ⟨s1, o⟩
    cases o with
    | ret a => cases a <;> rfl
    | panic e => rfl
    | fuelOut => rfl

/-- The semaphore value of `valueKernel` stays between 0 and `SEMVMX`. -/
theorem valueKernel_semop_range (v id : Int) (ops : List Sembuf) (h0 : 0 ≤ v)
    (h1 : v ≤ semvmx) :
    0 ≤ (valueKernel.semop v id ops).1 ∧ (valueKernel.semop v id ops).1 ≤ semvmx := by
  match ops with
  | [] => exact ⟨h0, h1⟩
  | _ :: _ :: _ => exact ⟨h0, h1⟩
  | [b] =>
    show 0 ≤ (kernelSemop v b).1 ∧ (kernelSemop v b).1 ≤ semvmx
    unfold kernelSemop
    unfold semvmx at *
    split_ifs <;> constructor <;> simp only <;> omega

/-- C16 as stated fails on valid semaphore values.  `signal(65537)` submits the
operation value 1 and the value 5 becomes 6; `signal(32768)` submits the
operation value -32768.  `signal(1)` on a semaphore of the largest value 32767
submits the operation value 1, the kernel rejects it with errno 34, the value
stays 32767 and `signal` panics. -/
theorem signal_posts_counterexample :
    ((signal valueKernel 1 { k := 5, calls := [] } { name := "", id := 3 } 65537).1.calls
        = [SysCall.semop 3 [⟨0, 1, 0⟩]] ∧
      (signal valueKernel 1 { k := 5, calls := [] } { name := "", id := 3 } 65537).1.k = 6 ∧
      ¬ ((signal valueKernel 1 { k := 5, calls := [] } { name := "", id := 3 } 65537).1.calls
        = [SysCall.semop 3 [⟨0, 65537, 0⟩]]) ∧
      ¬ ((signal valueKernel 1 { k := 5, calls := [] } { name := "", id := 3 } 65537).1.k
        = 5 + 65537)) ∧
    ((signal valueKernel 1 { k := 5, calls := [] } { name := "", id := 3 } 32768).1.calls
        = [SysCall.semop 3 [⟨0, -32768, 0⟩]] ∧
      ¬ ((signal valueKernel 1 { k := 5, calls := [] } { name := "", id := 3 } 32768).1.calls
        = [SysCall.semop 3 [⟨0, 32768, 0⟩]])) ∧
    ((signal valueKernel 1 { k := 32767, calls := [] } { name := "", id := 3 } 1).1.calls
        = [SysCall.semop 3 [⟨0, 1, 0⟩]] ∧
      (signal valueKernel 1 { k := 32767, calls := [] } { name := "", id := 3 } 1).1.k
        = 32767 ∧
      (signal valueKernel 1 { k := 32767, calls := [] } { name := "", id := 3 } 1).2
        = .panic (GoErr.sys 34) ∧
      ¬ ((signal valueKernel 1 { k := 32767, calls := [] } { name := "", id := 3 } 1).1.k
        = 32767 + 1)) := by
  decide

/-- C16, amended: for `1 ≤ n ≤ 32767` and a semaphore of value `v` (between 0
and `SEMVMX` = 32767), `signal(n)` submits exactly one `semop`, with the one
operation `{semnum 0, semop n, semflg 0}`.  When `v + n ≤ 32767` the value
becomes `v + n` and `signal` returns; when `v + n > 32767` the kernel rejects
the operation with errno 34, the value stays `v` and `signal` panics with that
error.  `wait()` submits the operation value -1, once and making the value
`v - 1` when `v ≥ 1`.  On any kernel, every system call `signal(n)` or `wait()`
makes is that `semop`, there is at least one, and there is exactly one when
its result is not an interruption; `signal` then panics exactly when the call
reports an error. -/
theorem signal_posts (sem : Semaphore) (n v : Int) (h1 : 1 ≤ n) (h2 : n ≤ 32767)
    (hv0 : 0 ≤ v) (hv1 : v ≤ 32767) :
    (∀ (fuel : Nat) (cs : List SysCall), v + n ≤ 32767 →
      signal valueKernel (fuel + 1) { k := v, calls := cs } sem n
        = ({ k := v + n, calls := cs ++ [SysCall.semop sem.id [⟨0, n, 0⟩]] }, .ret ())) ∧
    (∀ (fuel : Nat) (cs : List SysCall), 32767 < v + n →
      signal valueKernel (fuel + 1) { k := v, calls := cs } sem n
        = ({ k := v, calls := cs ++ [SysCall.semop sem.id [⟨0, n, 0⟩]] },
           .panic (GoErr.sys 34))) ∧
    (∀ (fuel : Nat) (cs : List SysCall), 1 ≤ v →
      wait valueKernel (fuel + 1) { k := v, calls := cs } sem
        = ({ k := v - 1, calls := cs ++ [SysCall.semop sem.id [⟨0, -1, 0⟩]] }, .ret ())) ∧
    (∀ {κ : Type} (K : Kernel κ) (fuel : Nat) (s : Sys κ),
      (∃ k, k ≤ fuel ∧ (0 < fuel → 0 < k) ∧
        (signal K fuel s sem n).1.calls
          = s.calls ++ List.replicate k (SysCall.semop sem.id [⟨0, n, 0⟩])) ∧
      (∃ k, k ≤ fuel ∧ (0 < fuel → 0 < k) ∧
        (wait K fuel s sem).1.calls
          = s.calls ++ List.replicate k (SysCall.semop sem.id [⟨0, -1, 0⟩])) ∧
      ((K.semop s.k sem.id [⟨0, n, 0⟩]).2 ≠ some GoErr.interrupted →
        (signal K (fuel + 1) s sem n).1.calls
          = s.calls ++ [SysCall.semop sem.id [⟨0, n, 0⟩]] ∧
        (signal K (fuel + 1) s sem n).1.k = (K.semop s.k sem.id [⟨0, n, 0⟩]).1 ∧
        (signal K (fuel + 1) s sem n).2
          = (match (K.semop s.k sem.id [⟨0, n, 0⟩]).2 with
              | some e => .panic e
              | none => .ret ())) ∧
      ((K.semop s.k sem.id [⟨0, -1, 0⟩]).2 ≠ some GoErr.interrupted →
        (wait K (fuel + 1) s sem).1.calls
          = s.calls ++ [SysCall.semop sem.id [⟨0, -1, 0⟩]])) := by
  have hn : int16 n = n := int16_small n (by omega) (by omega)
  have hm : int16 (-1) = -1 := by decide
  have hpos : ∀ cs : List SysCall, v + n ≤ 32767 →
      valueKernel.semop ({ k := v, calls := cs } : Sys Int).k sem.id [⟨0, n, 0⟩]
        = (v + n, none) := by
    intro cs hle
    show kernelSemop v ⟨0, n, 0⟩ = _
    unfold kernelSemop semvmx
    rw [if_neg (by simp), if_pos (by show (0 : Int) < n; omega),
      if_pos (by show v + n ≤ 32767; exact hle)]
  have hbig : ∀ cs : List SysCall, 32767 < v + n →
      valueKernel.semop ({ k := v, calls := cs } : Sys Int).k sem.id [⟨0, n, 0⟩]
        = (v, some (GoErr.sys 34)) := by
    intro cs hgt
    show kernelSemop v ⟨0, n, 0⟩ = _
    unfold kernelSemop semvmx
    rw [if_neg (by simp), if_pos (by show (0 : Int) < n; omega),
      if_neg (by show ¬ v + n ≤ 32767; omega)]
  have hneg : ∀ cs : List SysCall, 1 ≤ v →
      valueKernel.semop ({ k := v, calls := cs } : Sys Int).k sem.id [⟨0, -1, 0⟩]
        = (v - 1, none) := by
    intro cs hge
    show kernelSemop v ⟨0, -1, 0⟩ = _
    unfold kernelSemop semvmx
    rw [if_neg (by simp), if_neg (by decide), if_pos (by decide),
      if_pos (by show (0 : Int) ≤ v + -1; omega)]
    rfl
  refine ⟨?_, ?_, ?_, ?_⟩
  · intro fuel cs hle
    have ha := add_once valueKernel fuel { k := v, calls := cs } sem n
      (by rw [hn, hpos cs hle]; simp)
    rw [hn, hpos cs hle] at ha
    simp only [signal, ha]
  · intro fuel cs hgt
    have ha := add_once valueKernel fuel { k := v, calls := cs } sem n
      (by rw [hn, hbig cs hgt]; simp)
    rw [hn, hbig cs hgt] at ha
    simp only [signal, ha]
  · intro fuel cs hge
    have ha := add_once valueKernel fuel { k := v, calls := cs } sem (-1)
      (by rw [hm, hneg cs hge]; simp)
    rw [hm, hneg cs hge] at ha
    simp only [wait, ha]
  · intro κ K fuel s
    refine ⟨?_, ?_, ?_, ?_⟩
    · obtain ⟨k, hk0, hk1, hk⟩ := add_calls K sem n fuel s
      rw [hn] at hk
      exact ⟨k, hk0, hk1, by rw [(signal_calls_eq K fuel s sem n).1]; exact hk⟩
    · obtain ⟨k, hk0, hk1, hk⟩ := add_calls K sem (-1) fuel s
      rw [hm] at hk
      exact ⟨k, hk0, hk1, by rw [(signal_calls_eq K fuel s sem n).2]; exact hk⟩
    · intro hs
      have ha := add_once K fuel s sem n (by rw [hn]; exact hs)
      rw [hn] at ha
      refine ⟨?_, ?_, ?_⟩
      · simp only [signal, ha]
        cases (K.semop s.k sem.id [⟨0, n, 0⟩]).2 <;> rfl
      · simp only [signal, ha]
        cases (K.semop s.k sem.id [⟨0, n, 0⟩]).2 <;> rfl
      · simp only [signal, ha]
        cases (K.semop s.k sem.id [⟨0, n, 0⟩]).2 <;> rfl
    · intro hw
      have hb := add_once K fuel s sem (-1) (by rw [hm]; exact hw)
      rw [hm] at hb
      simp only [wait, hb]
      cases (K.semop s.k sem.id [⟨0, -1, 0⟩]).2 <;> rfl

theorem signal_posts_witness :
    signal valueKernel 1 { k := 5, calls := [] } { name := "s1", id := 3 } 3
      = ({ k := 8, calls := [SysCall.semop 3 [⟨0, 3, 0⟩]] }, .ret ()) ∧
    signal valueKernel 1 { k := 32766, calls := [] } { name := "s1", id := 3 } 2
      = ({ k := 32766, calls := [SysCall.semop 3 [⟨0, 2, 0⟩]] }, .panic (GoErr.sys 34)) ∧
    wait valueKernel 1 { k := 5, calls := [] } { name := "s1", id := 3 }
      = ({ k := 4, calls := [SysCall.semop 3 [⟨0, -1, 0⟩]] }, .ret ()) := by
  have h := signal_posts { name := "s1", id := 3 } 3 5
    (by decide) (by decide) (by decide) (by decide)
  have g := signal_posts { name := "s1", id := 3 } 2 32766
    (by decide) (by decide) (by decide) (by decide)
  exact ⟨h.1 0 [] (by decide), g.2.1 0 [] (by decide), h.2.2.1 0 [] (by decide)⟩

end Sema

namespace Sema

/-- C18 fails on the code: for a semaphore created by key (empty name) whose
`semctl(IPC_RMID)` succeeds, `removeSysVSemaByID` and `Destroy` make no
removal call and return the error `fmt.Errorf("semctl: %w", nil)`; with a
non-empty name the same call returns `nil`. -/
theorem removeSysVSemaByID_empty_name_errors :
    (removeSysVSemaByID valueKernel { k := 0, calls := [] } 3 "").2
      = some (GoErr.wrapNil "semctl") ∧
    (removeSysVSemaByID valueKernel { k := 0, calls := [] } 3 "").1.calls
      = [SysCall.semctl 3 0 0] ∧
    (Destroy valueKernel { k := 0, calls := [] } { name := "", id := 3 }).2
      = some (GoErr.wrapNil "semctl") ∧
    (removeSysVSemaByID valueKernel { k := 0, calls := [] } 3 "s1").2 = none := by
  decide

end Sema

/-! ## Shared memory, regions -/

namespace Shm

/-- C17 fails on the code: when the backing file exists and `os.Remove`
removes it, `destroyMemoryObject` returns the error
`fmt.Errorf("removing file: %w", nil)`; the second call, on the now absent
file, returns `nil`. -/
theorem destroyMemoryObject_existing_file_errors :
    (destroyMemoryObject
      { tempDir := "/tmp", dirs := ["/tmp/go-ipc"], files := ["/tmp/go-ipc/m3"],
        mkdirFails := none, removeFails := none } "m3").2
      = some (GoErr.wrapNil "removing file") ∧
    (destroyMemoryObject
      { tempDir := "/tmp", dirs := ["/tmp/go-ipc"], files := ["/tmp/go-ipc/m3"],
        mkdirFails := none, removeFails := none } "m3").1.files = [] ∧
    (destroyMemoryObject
      (destroyMemoryObject
        { tempDir := "/tmp", dirs := ["/tmp/go-ipc"], files := ["/tmp/go-ipc/m3"],
          mkdirFails := none, removeFails := none } "m3").1 "m3").2 = none := by
  decide

/-- `os.Remove` on directories: an empty directory, here named with a trailing
slash, is removed; a directory that still holds a file is reported with errno
39; a name that is neither a file nor a directory is reported with not-exist. -/
theorem osRemove_directory :
    osRemove { tempDir := "/tmp", dirs := ["/tmp/go-ipc"], files := [],
               mkdirFails := none, removeFails := none } "/tmp/go-ipc/"
      = ({ tempDir := "/tmp", dirs := [], files := [],
           mkdirFails := none, removeFails := none }, none) ∧
    (osRemove { tempDir := "/tmp", dirs := ["/tmp/go-ipc"], files := ["/tmp/go-ipc/m3"],
                mkdirFails := none, removeFails := none } "/tmp/go-ipc").2
      = some (GoErr.sys 39) ∧
    (osRemove { tempDir := "/tmp", dirs := ["/tmp/go-ipc"], files := ["/tmp/go-ipc/m3"],
                mkdirFails := none, removeFails := none } "/tmp/go-ipc/m4").2
      = some GoErr.notExist := by
  decide

end Shm


namespace Helper

/-- C19: when obtaining the object fails, `CreateWritableRegion` returns a nil
region, `created = false` and an error, and closes or destroys nothing.  When
the object is obtained and the mapping succeeds, it returns the region, no
error and the `created` flag of `NewMemoryObjectSize`, and only closes the
object handle.  When the mapping fails, it returns a nil region and an error,
closes the object handle, then closes the region if one was returned, then
destroys the object if and only if this call created it. -/
theorem createWritableRegion_cleanup (env : Env) :
    (if env.objErr ≠ none then
      (CreateWritableRegion env).region = none ∧
      (CreateWritableRegion env).created = false ∧
      (CreateWritableRegion env).err = some (Errorf "creating shm object" env.objErr) ∧
      (CreateWritableRegion env).trace = []
    else if env.regionErr = none then
      (CreateWritableRegion env).region = env.region ∧
      (CreateWritableRegion env).created = env.created ∧
      (CreateWritableRegion env).err = none ∧
      (CreateWritableRegion env).trace = [Ev.objClose]
    else
      (CreateWritableRegion env).region = none ∧
      (CreateWritableRegion env).created = false ∧
      (CreateWritableRegion env).err = some (Errorf "creating shm region" env.regionErr) ∧
      (CreateWritableRegion env).trace
        = [Ev.objClose] ++ (if env.region ≠ none then [Ev.regionClose] else [])
            ++ (if env.created then [Ev.objDestroy] else [])) ∧
    ((CreateWritableRegion env).err = none ↔ (env.objErr = none ∧ env.regionErr = none)) ∧
    ((CreateWritableRegion env).created = true ↔
      ((CreateWritableRegion env).err = none ∧ env.created = true)) ∧
    (Ev.objDestroy ∈ (CreateWritableRegion env).trace ↔
      (env.objErr = none ∧ env.regionErr ≠ none ∧ env.created = true)) ∧
    (Ev.regionClose ∈ (CreateWritableRegion env).trace ↔
      (env.objErr = none ∧ env.regionErr ≠ none ∧ env.region ≠ none)) ∧
    (CreateWritableRegion env).trace.count Ev.objClose = (if env.objErr = none then 1 else 0) := by
  obtain ⟨oe, cr, rg, re⟩ := env
  cases oe <;> cases re <;> cases cr <;> cases rg <;>
    simp [CreateWritableRegion, deferred, Errorf]

end Helper

namespace Mmf

/-- C20 fails on the code: on a region whose data is not nil (as a successful
`newMemoryRegion` returns it) `Close` makes no `unix.Munmap` call, leaves the
region as it is and returns `nil`; it calls `unix.Munmap` (once, on the nil
slice) and resets the region only when the data is nil. -/
theorem close_skips_mapped_region (munmap : Option Nat → Option GoErr) (d : Nat)
    (size pageOffset : Int) :
    Close munmap { data := some d, size := size, pageOffset := pageOffset }
      = ({ data := some d, size := size, pageOffset := pageOffset }, none, []) ∧
    (Close munmap { data := none, size := size, pageOffset := pageOffset }).2.2 = [none] ∧
    (Close munmap { data := none, size := size, pageOffset := pageOffset }).1
      = { data := none, size := 0, pageOffset := 0 } := by
  refine ⟨by simp [Close], ?_, ?_⟩
  · simp only [Close]
    cases munmap none <;> simp
  · simp only [Close]
    cases munmap none <;> simp

end Mmf


/-! ## lwMutex: unlock and the values of the cell -/

namespace LwMutex

theorem unlockSpin_unlocked {σ : Type} (n : Nat) (m : Machine σ) (h : m.cell = lwmUnlocked) :
    unlockSpin n m = (m, false) := by
  induction n with
  | zero => rfl
  | succ k ih => simp [unlockSpin, load, h, ih]

theorem unlock_haveWaiters {σ : Type} (W : WaitWaker σ) (m : Machine σ)
    (h : m.cell = lwmLockedHaveWaiters) :
    unlock W m = (wwWake W { m with cell := lwmUnlocked } 1, .ret ()) := by
  have hs := unlockSpin_unlocked lwmSpinCount ({ m with cell := lwmUnlocked } : Machine σ) rfl
  simp [unlock, load, h, store, unlockTail, hs]

/-- C21: with no interference, `unlock()` on a cell equal to
LOCKED_HAVE_WAITERS returns, leaves the cell equal to UNLOCKED and calls
`wake(1)` exactly once (and `wait` never); `unlock()` on a cell equal to
LOCKED_NO_WAITERS returns, leaves the cell equal to UNLOCKED and makes no
provider call. -/
theorem unlock_wake_protocol {σ : Type} (W : WaitWaker σ) (m1 m2 : Machine σ)
    (h1 : m1.cell = lwmLockedHaveWaiters) (h2 : m2.cell = lwmLockedNoWaiters) :
    (unlock W m1).2 = .ret () ∧
    (unlock W m1).1.cell = lwmUnlocked ∧
    (unlock W m1).1.calls = m1.calls ++ [Call.wake 1] ∧
    wakeCalls (unlock W m1).1.calls = wakeCalls m1.calls + 1 ∧
    waitCalls (unlock W m1).1.calls = waitCalls m1.calls ∧
    (unlock W m2).2 = .ret () ∧
    (unlock W m2).1.cell = lwmUnlocked ∧
    (unlock W m2).1.calls = m2.calls ∧
    (unlock W m2).1.ww = m2.ww := by
  rw [unlock_haveWaiters W m1 h1, unlock_noWaiters W m2 h2]
  refine ⟨rfl, rfl, rfl, ?_, ?_, rfl, rfl, rfl, rfl⟩
  · simp [wwWake, wakeCalls, List.filter_append]
  · simp [wwWake, waitCalls, List.filter_append]

theorem unlock_wake_protocol_witness :
    (unlock idleWW (mk 2)).1.cell = lwmUnlocked ∧
    (unlock idleWW (mk 2)).1.calls = [Call.wake 1] ∧
    (unlock idleWW (mk 1)).1.cell = lwmUnlocked ∧
    (unlock idleWW (mk 1)).1.calls = [] :=
  have h := unlock_wake_protocol idleWW (mk 2) (mk 1) rfl rfl
  ⟨h.2.1, h.2.2.1, h.2.2.2.2.2.2.1, h.2.2.2.2.2.2.2.1⟩

end LwMutex


namespace LwMutex

theorem waitLoop_cell_state {σ : Type} (W : WaitWaker σ) (hK : KeepsCellState W) (t : Int) :
    ∀ (fuel : Nat) (old : Int) (m : Machine σ), m.cell = lwmLockedHaveWaiters →
      IsCellState (waitLoop W t fuel old m).1.cell ∧
      ((waitLoop W t fuel old m).2 = .ret none →
        (waitLoop W t fuel old m).1.cell = lwmLockedHaveWaiters) := by
  intro fuel
  induction fuel with
  | zero =>
    intro old m hm
    unfold waitLoop
    by_cases h : old = lwmUnlocked
    · simp only [h, if_true]
      exact ⟨Or.inr (Or.inr hm), fun _ => hm⟩
    · simp only [h, if_false]
      exact ⟨Or.inr (Or.inr hm), fun hc => by simp at hc⟩
  | succ f ih =>
    intro old m hm
    unfold waitLoop
    by_cases h : old = lwmUnlocked
    · simp only [h, if_true]
      exact ⟨Or.inr (Or.inr hm), fun _ => hm⟩
    · simp only [h, if_false]
      have hw : IsCellState (wwWait W m lwmLockedHaveWaiters t).1.cell :=
        hK m.ww m.cell lwmLockedHaveWaiters t (Or.inr (Or.inr hm))
      cases hr : (wwWait W m lwmLockedHaveWaiters t).2 with
      | some e =>
        simp only
        exact ⟨hw, fun hc => by simp at hc⟩
      | none =>
        simp only
        exact ih _ _ rfl

theorem doLock_cell_state {σ : Type} (W : WaitWaker σ) (hK : KeepsCellState W) (fuel : Nat)
    (m : Machine σ) (t : Int) :
    IsCellState (doLock W fuel m t).1.cell ∧
    ((doLock W fuel m t).2 = .ret none → IsLocked (doLock W fuel m t).1.cell) := by
  by_cases h0 : m.cell = lwmUnlocked
  · rw [doLock_unlocked W fuel m t h0]
    exact ⟨Or.inr (Or.inl rfl), fun _ => Or.inl rfl⟩
  · unfold doLock
    rw [spinTryLock_locked _ m h0]
    by_cases h2 : m.cell = lwmLockedHaveWaiters
    · simp only [load, h2, ne_eq, not_true_eq_false, if_false, Bool.false_eq_true]
      have := waitLoop_cell_state W hK t fuel lwmLockedHaveWaiters m h2
      exact ⟨this.1, fun hc => Or.inr (this.2 hc)⟩
    · simp only [load, h2, swap, ne_eq, not_false_eq_true, if_true, Bool.false_eq_true,
        if_false]
      have := waitLoop_cell_state W hK t fuel m.cell { m with cell := lwmLockedHaveWaiters } rfl
      exact ⟨this.1, fun hc => Or.inr (this.2 hc)⟩

theorem lock_eq_doLock {σ : Type} (W : WaitWaker σ) (fuel : Nat) (m : Machine σ) :
    (lock W fuel m).1 = (doLock W fuel m (-1)).1 ∧
    ((lock W fuel m).2 = .ret () → (doLock W fuel m (-1)).2 = .ret none) := by
  unfold lock
  rcases doLock W fuel m (-1) with ⟨m1, o⟩
  cases o with
  | ret a => cases a <;> simp
  | panicText s => simp
  | panicErr e => simp
  | fuelOut => simp

theorem lockTimeout_eq_doLock {σ : Type} (W : WaitWaker σ) (fuel : Nat) (m : Machine σ)
    (t : Int) :
    (lockTimeout W fuel m t).1 = (doLock W fuel m t).1 ∧
    ((lockTimeout W fuel m t).2 = .ret true → (doLock W fuel m t).2 = .ret none) := by
  unfold lockTimeout
  rcases doLock W fuel m t with ⟨m1, o⟩
  cases o with
  | ret a =>
    cases a with
    | none => simp
    | some e => cases e <;> simp [IsTimeoutErr]
  | panicText s => simp
  | panicErr e => simp
  | fuelOut => simp

/-- C22: for a cell holding UNLOCKED, LOCKED_NO_WAITERS or LOCKED_HAVE_WAITERS
and a provider whose `wait` may return `nil`, a timeout error or another
error at will (the other threads leaving one of the three values in the cell
meanwhile), each of `init`, `tryLock`, `doLock`, `lock`, `lockTimeout` and
`unlock` leaves one of the three values in the cell, however the call ends;
and when `tryLock`, `doLock`, `lock` or `lockTimeout` reports success the cell
holds one of the two locked values. -/
theorem cell_three_values {σ : Type} (W : WaitWaker σ) (hK : KeepsCellState W) (fuel : Nat)
    (m : Machine σ) (t : Int) (h : IsCellState m.cell) :
    IsCellState (init m).cell ∧
    IsCellState (tryLock m).1.cell ∧
    ((tryLock m).2 = true → IsLocked (tryLock m).1.cell) ∧
    IsCellState (doLock W fuel m t).1.cell ∧
    ((doLock W fuel m t).2 = .ret none → IsLocked (doLock W fuel m t).1.cell) ∧
    IsCellState (lock W fuel m).1.cell ∧
    ((lock W fuel m).2 = .ret () → IsLocked (lock W fuel m).1.cell) ∧
    IsCellState (lockTimeout W fuel m t).1.cell ∧
    ((lockTimeout W fuel m t).2 = .ret true → IsLocked (lockTimeout W fuel m t).1.cell) ∧
    IsCellState (unlock W m).1.cell := by
  have hd := doLock_cell_state W hK fuel m t
  have hl := doLock_cell_state W hK fuel m (-1)
  have e1 := lock_eq_doLock W fuel m
  have e2 := lockTimeout_eq_doLock W fuel m t
  refine ⟨Or.inl rfl, ?_, ?_, hd.1, hd.2, ?_, ?_, ?_, ?_, ?_⟩
  · unfold tryLock cas
    by_cases h0 : m.cell = lwmUnlocked
    · simp only [h0, if_true]; exact Or.inr (Or.inl rfl)
    · simp only [h0, if_false]; exact h
  · unfold tryLock cas
    by_cases h0 : m.cell = lwmUnlocked
    · simp only [h0, if_true]; exact fun _ => Or.inl rfl
    · simp only [h0, if_false]; intro hc; simp at hc
  · rw [e1.1]; exact hl.1
  · intro hc; rw [e1.1]; exact hl.2 (e1.2 hc)
  · rw [e2.1]; exact hd.1
  · intro hc; rw [e2.1]; exact hd.2 (e2.2 hc)
  · rcases h with h0 | h1 | h2
    · rw [unlock_unlocked W m h0]; exact Or.inl h0
    · rw [unlock_noWaiters W m h1]; exact Or.inl rfl
    · rw [unlock_haveWaiters W m h2]; exact Or.inl rfl

theorem cell_three_values_witness :
    (lock (releasedWW none) 1 (mk 1)).2 = .ret () ∧
    (lock (releasedWW none) 1 (mk 1)).1.cell = lwmLockedHaveWaiters ∧
    IsCellState (lockTimeout (releasedWW (some Err.timeout)) 1 (mk 1) 5).1.cell ∧
    IsLocked (lock (releasedWW none) 1 (mk 1)).1.cell := by
  have hk : ∀ r, KeepsCellState (releasedWW r) := fun _ _ _ _ _ _ => Or.inl rfl
  have h := cell_three_values (releasedWW none) (hk none) 1 (mk 1) 5 (by decide)
  have h2 := cell_three_values (releasedWW (some Err.timeout)) (hk _) 1 (mk 1) 5 (by decide)
  have hret : (lock (releasedWW none) 1 (mk 1)).2 = .ret () := by decide
  exact ⟨hret, by decide, h2.2.2.2.2.2.2.2.1, h.2.2.2.2.2.2.1 hret⟩

end LwMutex


/-! ## Waiter ids and event names -/

namespace CondWaitlist

theorem digitChar_value (k : Nat) (h : k < 10) : (Nat.digitChar k).toNat - 48 = k := by
  interval_cases k <;> rfl

theorem foldl_toDigitsCore :
    ∀ (fuel n : Nat) (ds : List Char), n < fuel →
      List.foldl (fun a ch => 10 * a + (Char.toNat ch - 48)) 0 (Nat.toDigitsCore 10 fuel n ds)
        = List.foldl (fun a ch => 10 * a + (Char.toNat ch - 48)) n ds := by
  intro fuel
  induction fuel with
  | zero => intro n ds h; omega
  | succ f ih =>
    intro n ds h
    have hd := digitChar_value (n % 10) (Nat.mod_lt _ (by decide))
    by_cases h0 : n / 10 = 0
    · have hn : n % 10 = n := by omega
      simp only [Nat.toDigitsCore, h0, if_true, List.foldl_cons, hd]
      simp [hn]
    · have hlt : n / 10 < f := by omega
      simp only [Nat.toDigitsCore, h0, if_false]
      rw [ih (n / 10) _ hlt]
      simp only [List.foldl_cons, hd]
      congr 1
      omega

theorem decimalValue_toDigits (n : Nat) : decimalValue (Nat.toDigits 10 n) = n := by
  unfold decimalValue Nat.toDigits
  rw [foldl_toDigitsCore (n + 1) n [] (by omega)]
  rfl

/-- The id can be read back from the event name. -/
theorem decimalValue_eventName (id : Nat) :
    decimalValue ((condWaiterEventName id).data.drop 4) = id := by
  have hdata : (condWaiterEventName id).data = ['c', 'e', 'v', '.'] ++ Nat.toDigits 10 id := by
    simp [condWaiterEventName, Nat.repr, List.asString, String.data_append]
  rw [hdata]
  simp [decimalValue_toDigits]

theorem waiterID_eq (p s : Nat) (hp : p < 4294967296) (hs : s < 4294967296) :
    waiterID p s = p * 4294967296 + s := by
  unfold waiterID
  have h1 : p <<< 32 = 2 ^ 32 * p := by rw [Nat.shiftLeft_eq]; ring
  have h2 : (2 ^ 32 * p) % 18446744073709551616 = 2 ^ 32 * p := by
    apply Nat.mod_eq_of_lt; omega
  have hs2 : s < 2 ^ 32 := by norm_num; exact hs
  rw [h1, h2, ← Nat.mul_add_lt_is_or hs2 p]
  omega

theorem nthNextID_eq : ∀ (k : Nat) (c : Cond), nthNextID c k = (c.seq + k + 1) % 4294967296 := by
  intro k
  induction k with
  | zero => intro c; simp [nthNextID, nextID]
  | succ n ih =>
    intro c
    simp only [nthNextID]
    rw [ih]
    simp only [nextID]
    omega

/-- The ids `newWaiter` tries are built from the process id and the
successive results of `nextID`, in order. -/
theorem newWaiter_createIds (env : Env) (slot : Nat) :
    ∀ (fuel : Nat) (c : Cond), ∃ k, k ≤ fuel ∧ (0 < fuel → 0 < k) ∧
      createIds (newWaiter env fuel c slot).1.trace
        = createIds c.trace
          ++ (List.range k).map (fun i => waiterID env.pid (nthNextID c i)) := by
  have happ : ∀ a b : List Ev, createIds (a ++ b) = createIds a ++ createIds b := by
    intro a b
    induction a with
    | nil => rfl
    | cons e a ih => cases e <;> simp [createIds, ih]
  intro fuel
  induction fuel with
  | zero => intro c; exact ⟨0, le_refl _, fun h => h, by simp [newWaiter]⟩
  | succ f ih =>
    intro c
    have hfirst : waiterID env.pid (nextID c).2 = waiterID env.pid (nthNextID c 0) := rfl
    cases hc : env.createEvent (waiterID env.pid (nextID c).2) with
    | none =>
      refine ⟨1, by omega, fun _ => by omega, ?_⟩
      simp only [newWaiter, hc]
      simp [record, nextID, happ, createIds, nthNextID]
      rfl
    | some err =>
      by_cases he : errorsIsNotExist err = true
      · have hstep : newWaiter env (f + 1) c slot
            = newWaiter env f (record (nextID c).1
                (Ev.create (waiterID env.pid (nextID c).2))) slot := by
          simp [newWaiter, hc, he]
        obtain ⟨k, hk, _, hids⟩ :=
          ih (record (nextID c).1 (Ev.create (waiterID env.pid (nextID c).2)))
        refine ⟨k + 1, by omega, fun _ => by omega, ?_⟩
        rw [hstep, hids]
        have hshift : ∀ i, nthNextID
            (record (nextID c).1 (Ev.create (waiterID env.pid (nextID c).2))) i
            = nthNextID c (i + 1) := by
          intro i
          rw [nthNextID_eq, nthNextID_eq]
          simp only [record, nextID]
          omega
        simp only [hshift]
        rw [List.range_succ_eq_map, List.map_cons, List.map_map]
        simp [record, nextID, happ, createIds, nthNextID, Function.comp_def]
      · refine ⟨1, by omega, fun _ => by omega, ?_⟩
        simp only [newWaiter, hc, he]
        simp [record, nextID, happ, createIds, nthNextID]
        rfl

theorem nthNextID_shift (c : Cond) (e : Ev) (i : Nat) :
    nthNextID (record (nextID c).1 e) i = nthNextID c (i + 1) := by
  rw [nthNextID_eq, nthNextID_eq]
  simp only [record, nextID]
  omega

/-- When creating the events of the first `k` ids fails with not-exist and the
event of the next id can be created, `newWaiter` returns the waiter of that id,
having stored the id in its slot, with fuel for `k + 1` attempts. -/
theorem newWaiter_at (env : Env) (slot : Nat) :
    ∀ (k fuel : Nat) (c : Cond), k < fuel →
      (∀ i, i < k → ∃ err, env.createEvent (waiterID env.pid (nthNextID c i)) = some err ∧
        errorsIsNotExist err = true) →
      env.createEvent (waiterID env.pid (nthNextID c k)) = none →
      newWaiter env fuel c slot
        = ({ waiters := c.waiters.set slot (waiterID env.pid (nthNextID c k)),
             seq := nthNextID c k,
             trace := c.trace ++ (List.range (k + 1)).map
               (fun n => Ev.create (waiterID env.pid (nthNextID c n))) },
           .ret { slot := slot, ev := waiterID env.pid (nthNextID c k) }) := by
  intro k
  induction k with
  | zero =>
    intro fuel c hf _ hc
    obtain ⟨f, rfl⟩ : ∃ f, fuel = f + 1 := ⟨fuel - 1, by omega⟩
    have hc1 : env.createEvent (waiterID env.pid (nextID c).2) = none := hc
    simp only [newWaiter, hc1]
    simp [record, nextID, nthNextID]
    rfl
  | succ k ih =>
    intro fuel c hf hfail hc
    obtain ⟨f, rfl⟩ : ∃ f, fuel = f + 1 := ⟨fuel - 1, by omega⟩
    obtain ⟨err, herr, hne⟩ := hfail 0 (by omega)
    have herr1 : env.createEvent (waiterID env.pid (nextID c).2) = some err := herr
    have hstep : newWaiter env (f + 1) c slot
        = newWaiter env f (record (nextID c).1
            (Ev.create (waiterID env.pid (nextID c).2))) slot := by
      simp [newWaiter, herr1, hne]
    rw [hstep]
    rw [ih f (record (nextID c).1 (Ev.create (waiterID env.pid (nextID c).2))) (by omega)
      (by
        intro i hi
        rw [nthNextID_shift]
        exact hfail (i + 1) (by omega))
      (by rw [nthNextID_shift]; exact hc)]
    simp only [nthNextID_shift]
    have hr : (List.range (k + 1 + 1)).map
          (fun n => Ev.create (waiterID env.pid (nthNextID c n)))
        = Ev.create (waiterID env.pid (nextID c).2)
          :: (List.range (k + 1)).map
            (fun n => Ev.create (waiterID env.pid (nthNextID c (n + 1)))) := by
      rw [List.range_succ_eq_map, List.map_cons, List.map_map]
      rfl
    rw [hr]
    simp [record, nextID]

/-- A waiter returned by `newWaiter` comes from the first attempt whose event
could be created; the attempts before it failed with not-exist. -/
theorem newWaiter_ret (env : Env) (slot : Nat) :
    ∀ (fuel : Nat) (c c1 : Cond) (w : Waiter), newWaiter env fuel c slot = (c1, .ret w) →
      ∃ k, k < fuel ∧
        (∀ i, i < k → ∃ err, env.createEvent (waiterID env.pid (nthNextID c i)) = some err ∧
          errorsIsNotExist err = true) ∧
        env.createEvent (waiterID env.pid (nthNextID c k)) = none := by
  intro fuel
  induction fuel with
  | zero =>
    intro c c1 w h
    simp [newWaiter] at h
  | succ f ih =>
    intro c c1 w h
    cases hc : env.createEvent (waiterID env.pid (nextID c).2) with
    | none => exact ⟨0, by omega, fun i hi => by omega, hc⟩
    | some err =>
      by_cases he : errorsIsNotExist err = true
      · have hstep : newWaiter env (f + 1) c slot
            = newWaiter env f (record (nextID c).1
                (Ev.create (waiterID env.pid (nextID c).2))) slot := by
          simp [newWaiter, hc, he]
        rw [hstep] at h
        obtain ⟨k, hk, hfail, hok⟩ := ih _ c1 w h
        refine ⟨k + 1, by omega, ?_, ?_⟩
        · intro i hi
          cases i with
          | zero => exact ⟨err, hc, he⟩
          | succ i =>
            have h2 := hfail i (by omega)
            rw [nthNextID_shift] at h2
            exact h2
        · rw [nthNextID_shift] at hok
          exact hok
      · simp [newWaiter, hc, he] at h

/-- C23: for process ids and counter values below `2^32` the id built by
`newWaiter` has the process id in its high 32 bits and the counter in its low
32 bits, so two such ids are equal exactly when both parts are equal; the
results of `nextID` calls fewer than `2^32` calls apart are distinct, and the
counter is back at the same value after `2^32` calls; `condWaiterEventName`
gives equal names only for equal ids.  `newWaiter` tries the ids built from
the process id and the successive results of `nextID`, at least one when it has
fuel; when the events of the first `k` ids cannot be created (not-exist) and
that of the next one can, it stores exactly that id, `pid << 32 | counter`, in
its slot of the waiter list and returns the waiter holding it; and every waiter
it returns arises so. -/
theorem waiter_ids_unique (p1 p2 s1 s2 i j id1 id2 : Nat) (c : Cond)
    (hp1 : p1 < 4294967296) (hp2 : p2 < 4294967296)
    (hs1 : s1 < 4294967296) (hs2 : s2 < 4294967296)
    (hij : i < j) (hj : j - i < 4294967296) :
    waiterID p1 s1 / 4294967296 = p1 ∧
    waiterID p1 s1 % 4294967296 = s1 ∧
    (waiterID p1 s1 = waiterID p2 s2 ↔ (p1 = p2 ∧ s1 = s2)) ∧
    nthNextID c i ≠ nthNextID c j ∧
    nthNextID c (i + 4294967296) = nthNextID c i ∧
    (condWaiterEventName id1 = condWaiterEventName id2 ↔ id1 = id2) ∧
    (∀ (env : Env) (fuel slot : Nat), ∃ k, k ≤ fuel ∧ (0 < fuel → 0 < k) ∧
      createIds (newWaiter env fuel c slot).1.trace
        = createIds c.trace
          ++ (List.range k).map (fun n => waiterID env.pid (nthNextID c n))) ∧
    (∀ (env : Env) (fuel slot k : Nat), k < fuel →
      (∀ n, n < k → ∃ err, env.createEvent (waiterID env.pid (nthNextID c n)) = some err ∧
        errorsIsNotExist err = true) →
      env.createEvent (waiterID env.pid (nthNextID c k)) = none →
      newWaiter env fuel c slot
        = ({ waiters := c.waiters.set slot (waiterID env.pid (nthNextID c k)),
             seq := nthNextID c k,
             trace := c.trace ++ (List.range (k + 1)).map
               (fun n => Ev.create (waiterID env.pid (nthNextID c n))) },
           .ret { slot := slot, ev := waiterID env.pid (nthNextID c k) })) ∧
    (∀ (env : Env) (fuel slot : Nat) (c1 : Cond) (w : Waiter),
      newWaiter env fuel c slot = (c1, .ret w) →
      ∃ k, k < fuel ∧
        w.ev = waiterID env.pid (nthNextID c k) ∧
        nthNextID c k = (c.seq + k + 1) % 4294967296 ∧
        (env.pid < 4294967296 →
          w.ev / 4294967296 = env.pid ∧ w.ev % 4294967296 = nthNextID c k) ∧
        w.slot = slot ∧
        c1.waiters = c.waiters.set slot w.ev ∧
        c1.seq = nthNextID c k ∧
        env.createEvent w.ev = none ∧
        createIds c1.trace
          = createIds c.trace
            ++ (List.range (k + 1)).map (fun n => waiterID env.pid (nthNextID c n))) := by
  rw [waiterID_eq p1 s1 hp1 hs1, waiterID_eq p2 s2 hp2 hs2]
  refine ⟨by omega, by omega, ⟨fun h => by omega, fun h => by rw [h.1, h.2]⟩, ?_, ?_, ?_,
    fun env fuel slot => newWaiter_createIds env slot fuel c,
    fun env fuel slot k hk hfail hok => newWaiter_at env slot k fuel c hk hfail hok, ?_⟩
  · rw [nthNextID_eq, nthNextID_eq]; omega
  · rw [nthNextID_eq, nthNextID_eq]; omega
  · constructor
    · intro h
      have h1 := decimalValue_eventName id1
      rw [h, decimalValue_eventName id2] at h1
      exact h1.symm
    · intro h; rw [h]
  · intro env fuel slot c1 w h
    obtain ⟨k, hk, hfail, hok⟩ := newWaiter_ret env slot fuel c c1 w h
    have heq := newWaiter_at env slot k fuel c hk hfail hok
    rw [h] at heq
    have hc1 := (Prod.mk.inj heq).1
    have hw : w = { slot := slot, ev := waiterID env.pid (nthNextID c k) } :=
      Exec.ret.inj (Prod.mk.inj heq).2
    have hlt : nthNextID c k < 4294967296 := by rw [nthNextID_eq]; omega
    have hcreate : ∀ (a : List Ev) (l : List Nat),
        createIds (a ++ l.map Ev.create) = createIds a ++ l := by
      intro a l
      induction a with
      | nil =>
        induction l with
        | nil => rfl
        | cons x l ih => simpa [createIds] using ih
      | cons e a ih => cases e <;> simp [createIds] <;> simpa using ih
    refine ⟨k, hk, by rw [hw], nthNextID_eq k c, ?_, by rw [hw], by rw [hc1, hw],
      by rw [hc1], by rw [hw]; exact hok, ?_⟩
    · intro hp
      rw [hw]
      show waiterID env.pid (nthNextID c k) / 4294967296 = env.pid ∧
        waiterID env.pid (nthNextID c k) % 4294967296 = nthNextID c k
      rw [waiterID_eq env.pid (nthNextID c k) hp hlt]
      omega
    · rw [hc1]
      show createIds (c.trace ++ (List.range (k + 1)).map
        (fun n => Ev.create (waiterID env.pid (nthNextID c n)))) = _
      have hm : (List.range (k + 1)).map (fun n => Ev.create (waiterID env.pid (nthNextID c n)))
          = ((List.range (k + 1)).map (fun n => waiterID env.pid (nthNextID c n))).map
              Ev.create := by
        rw [List.map_map]; rfl
      rw [hm, hcreate]

theorem waiter_ids_unique_witness :
    waiterID 7 1 / 4294967296 = 7 ∧
    waiterID 7 1 % 4294967296 = 1 ∧
    (waiterID 7 1 = waiterID 7 2 ↔ ((7 : Nat) = 7 ∧ (1 : Nat) = 2)) ∧
    nthNextID { waiters := [0, 0], seq := 4294967295, trace := [] } 0
      ≠ nthNextID { waiters := [0, 0], seq := 4294967295, trace := [] } 3 ∧
    newWaiter demoEnv 1 { waiters := [0, 0], seq := 4294967295, trace := [] } 1
      = ({ waiters := [0, 30064771072], seq := 0, trace := [Ev.create 30064771072] },
         .ret { slot := 1, ev := 30064771072 }) :=
  have h := waiter_ids_unique 7 7 1 2 0 3 12 13
    { waiters := [0, 0], seq := 4294967295, trace := [] }
    (by decide) (by decide) (by decide) (by decide) (by decide) (by decide)
  ⟨h.1, h.2.1, h.2.2.1, h.2.2.2.1,
    h.2.2.2.2.2.2.2.1 demoEnv 1 1 0 (by decide) (fun n hn => absurd hn (by omega)) rfl⟩

/-- C24 fails on the code: when creating the event of the first id fails
because the event exists already (`os.ErrExist`, bare or wrapped),
`newWaiter` makes no second attempt and panics; it tries the next counter
value only when the error is `os.ErrNotExist`. -/
theorem newWaiter_collision_panics :
    newWaiter (collideEnv GoErr.exist) 5 { waiters := [0], seq := 0, trace := [] } 0
      = ({ waiters := [0], seq := 1, trace := [Ev.create 30064771073] },
         .panic (GoErr.wrap "cond: failed to create an event" GoErr.exist)) ∧
    (newWaiter (collideEnv (GoErr.wrap "creating shared state" GoErr.exist)) 5
      { waiters := [0], seq := 0, trace := [] } 0).2
      = .panic (GoErr.wrap "cond: failed to create an event"
          (GoErr.wrap "creating shared state" GoErr.exist)) ∧
    newWaiter (collideEnv GoErr.notExist) 5 { waiters := [0], seq := 0, trace := [] } 0
      = ({ waiters := [30064771074], seq := 2,
           trace := [Ev.create 30064771073, Ev.create 30064771074] },
         .ret { slot := 0, ev := 30064771074 }) := by
  decide

end CondWaitlist

end GoIpc
